import Mathlib

/-!
Shallow embedding of the VidyaLehar offline-first sync engine.

Sources embedded here:
  * `src/services/db.ts` — the Dexie database schema (`LocalDB`).
  * `src/unnamed/part_011` (Dexie content service) — `saveCourse`, `saveLesson`,
    `deleteCourse`, `updateQuizProgress`, video helpers.
  * `src/services/syncService.ts` — `syncDown` and `processSyncQueue`.

Modelling conventions:
  * JavaScript numbers used for scores are modelled as `ℚ` (the code only ever
    adds, divides and compares them; we idealise IEEE doubles as exact rationals).
  * Timestamps (`Date.now()`) are `Nat` parameters threaded in by the caller.
  * Dexie tables are association lists keyed by their primary key; `put` is an
    in-place upsert, `bulkDelete` a key filter, `add` on `syncQueue` assigns the
    auto-incremented key `nextQueueId`.  (Dexie enumerates string-keyed tables
    in key order; every property proved below is independent of enumeration
    order, so the model keeps insertion order.)
  * Supabase responses are `SupaRes` records with `data`/`error` fields; remote
    failures are driven by an oracle `Nat → Bool` consumed one remote call at a
    time.
  * Blobs are opaque `Nat` tokens.
-/

/-- From types.ts — QuizQuestion. -/
structure QuizQuestion where
  question : String
  options : List String
  correctAnswerIndex : Nat
deriving DecidableEq, Repr

/-- From types.ts — TranscriptEntry (start/end in seconds). -/
structure TranscriptEntry where
  text : String
  start : ℚ
  «end» : ℚ
deriving DecidableEq, Repr

/-- From types.ts — Lesson.  Optional fields are `Option`s; the optional
`hasOfflineVideo` flag is a `Bool` (absent ≡ false, which is how the code
consumes it). -/
structure Lesson where
  id : String
  title : String
  content : String
  summary : Option String
  videoUrl : Option String
  hasOfflineVideo : Bool
  transcript : Option (List TranscriptEntry)
  quiz : List QuizQuestion
  difficulty : Option String
deriving DecidableEq, Repr

/-- From types.ts — Course (lessons embedded). -/
structure Course where
  id : String
  title : String
  description : String
  icon : String
  lessons : List Lesson
  authorId : String
  forClass : Int
deriving DecidableEq, Repr

/-- From types.ts — LessonStatus. -/
structure LessonStatus where
  lessonId : String
  attempts : Nat
  finalScore : ℚ
deriving DecidableEq, Repr

/-- From types.ts — ScoreHistory. -/
structure ScoreHistory where
  date : String
  score : ℚ
deriving DecidableEq, Repr

/-- From types.ts — CourseProgress. -/
structure CourseProgress where
  courseId : String
  completedLessons : Nat
  totalLessons : Nat
  score : ℚ
  lessonStatus : List LessonStatus
deriving DecidableEq, Repr

/-- From types.ts — StudentProgress. -/
structure StudentProgress where
  studentId : String
  studentName : String
  courseProgress : List CourseProgress
  scoreHistory : List ScoreHistory
deriving DecidableEq, Repr

/-- From supabaseClient.ts — Profile row.  The source field `class` is a Lean
keyword, so it is named `cls` here. -/
structure Profile where
  id : String
  username : String
  role : String
  cls : Int
deriving DecidableEq, Repr

/-- From db.ts — the discriminant of `SyncQueueItem.type`. -/
inductive SyncType where
  | UPDATE_PROGRESS
  | SAVE_COURSE
  | DELETE_COURSE
  | SAVE_LESSON
  | DELETE_LESSON
deriving DecidableEq, Repr

/-- The shapes the untyped (`any`) `SyncQueueItem.payload` takes in the code:
a whole course (`SAVE_COURSE`), a whole progress record (`UPDATE_PROGRESS`),
a lesson flattened with its `course_id` (`SAVE_LESSON`), or a bare `{ id }`
(`DELETE_COURSE` / `DELETE_LESSON`). -/
inductive SyncPayload where
  | course (c : Course)
  | progress (p : StudentProgress)
  | lesson (l : Lesson) (course_id : String)
  | idOnly (id : String)
deriving DecidableEq, Repr

/-- Reading `.id` off a payload (JS property access; `undefined` is `none`). -/
def SyncPayload.idOf : SyncPayload → Option String
  | .course c => some c.id
  | .progress _ => none
  | .lesson l _ => some l.id
  | .idOnly s => some s

/-- From db.ts — SyncQueueItem (auto-incremented numeric key `id`). -/
structure SyncQueueItem where
  id : Nat
  type : SyncType
  payload : SyncPayload
  timestamp : Nat
deriving DecidableEq, Repr

/-- From db.ts — a row of the `videos` table (blob modelled as an opaque token). -/
structure VideoRow where
  id : String
  blob : Nat
deriving DecidableEq, Repr

/-- From db.ts — the whole Dexie database `vidyaleharLocalDB`.  The flat `lessons`
table is declared in the schema but no embedded operation writes it (matching
the source, where lessons live embedded in `courses`). -/
structure LocalDB where
  courses : List Course
  lessons : List (Lesson × String)
  studentProgress : List StudentProgress
  profiles : List Profile
  syncQueue : List SyncQueueItem
  videos : List VideoRow
  nextQueueId : Nat
deriving DecidableEq, Repr

/-! ### Keyed-table primitives (Dexie `put` / `bulkPut` / `bulkDelete` / `add`) -/

/-- Dexie `Table.put`: replace the row with the same primary key, else append. -/
def putBy (key : α → String) (x : α) (l : List α) : List α :=
  if l.any (fun y => key y = key x) then
    l.map (fun y => if key y = key x then x else y)
  else l ++ [x]

/-- Dexie `Table.bulkPut`. -/
def bulkPutBy (key : α → String) (xs : List α) (l : List α) : List α :=
  xs.foldl (fun acc x => putBy key x acc) l

/-- Dexie `Table.bulkDelete`. -/
def bulkDeleteBy (key : α → String) (ids : List String) (l : List α) : List α :=
  l.filter (fun y => ¬ ids.contains (key y))

/-- Dexie db.syncQueue.add of a {type, payload, timestamp} record — auto-increment key. -/
def addQueueItem (db : LocalDB) (t : SyncType) (p : SyncPayload) (ts : Nat) : LocalDB :=
  { db with
    syncQueue := db.syncQueue ++ [⟨db.nextQueueId, t, p, ts⟩]
    nextQueueId := db.nextQueueId + 1 }

/-- Replace the first element satisfying `p` by its image under `f`
(JS `find` + in-place mutation of the found object). -/
def updateFirst (p : α → Bool) (f : α → α) : List α → List α
  | [] => []
  | x :: xs => if p x then f x :: xs else x :: updateFirst p f xs

/-- Remove the first element satisfying `p` (JS `findIndex` + `splice(i, 1)`). -/
def removeFirst (p : α → Bool) : List α → List α
  | [] => []
  | x :: xs => if p x then xs else x :: removeFirst p xs

/-! ### `updateQuizProgress` (part_011, Dexie content service) -/

/-- The aggregate recomputation at the end of `updateQuizProgress` (and of
`deleteLesson`): completedLessons = count of lessonStatus entries with
finalScore > 0, score = mean of those entries' finalScore (0 when none). -/
def recomputeCP (cp : CourseProgress) (ls1 : List LessonStatus) : CourseProgress :=
  let completedLessonsWithScore := ls1.filter (fun ls => 0 < ls.finalScore)
  let totalScore := (completedLessonsWithScore.map (fun ls => ls.finalScore)).sum
  { cp with
    lessonStatus := ls1
    completedLessons := completedLessonsWithScore.length
    score := if 0 < completedLessonsWithScore.length then
        totalScore / (completedLessonsWithScore.length : ℚ)
      else 0 }

/-- The lessonStatus update of `updateQuizProgress`: first attempt pushes a
fresh entry `{attempts: 1, finalScore: score}`; a repeat attempt increments
`attempts` and takes the max of old and new score. -/
def bumpLessonStatus (lessonId : String) (score : ℚ) (lss : List LessonStatus) :
    List LessonStatus :=
  if lss.any (fun ls => ls.lessonId == lessonId) then
    updateFirst (fun ls => ls.lessonId == lessonId)
      (fun ls => { ls with attempts := ls.attempts + 1, finalScore := max ls.finalScore score })
      lss
  else lss ++ [⟨lessonId, 1, score⟩]

/-- The overall-average/score-history update shared (with small variations) by
the content-service writes: recompute the mean of the positive course scores
and write it into today's history entry (pushing one when `pushIfMissing`). -/
def updateHistory (today : String) (pushIfMissing : Bool) (sp : StudentProgress) :
    StudentProgress :=
  let allCourseScores := (sp.courseProgress.map (fun cp => cp.score)).filter (fun s => 0 < s)
  let overallAverage : ℚ :=
    if 0 < allCourseScores.length then allCourseScores.sum / (allCourseScores.length : ℚ) else 0
  if sp.scoreHistory.any (fun h => h.date == today) then
    let sh := updateFirst (fun h => h.date == today)
      (fun h => { h with score := overallAverage }) sp.scoreHistory
    { sp with scoreHistory := sh }
  else if pushIfMissing then
    { sp with scoreHistory := sp.scoreHistory ++ [⟨today, overallAverage⟩] }
  else sp

/-- The update of the courseProgress list inside `updateQuizProgress`: mutate the first
entry for the course by bumping the lesson status and recomputing aggregates. -/
def uqpCourseList (cid lid : String) (s : ℚ) (cps : List CourseProgress) :
    List CourseProgress :=
  updateFirst (fun c => c.courseId == cid)
    (fun c => recomputeCP c (bumpLessonStatus lid s c.lessonStatus)) cps

/-- The record produced by `updateQuizProgress` before it is written back:
fetch-or-create the student record and the course entry, bump the lesson
status, recompute the per-course aggregates and today's overall average. -/
def uqpRecord (studentId studentName courseId lessonId : String)
    (score : ℚ) (today : String) (db : LocalDB) : StudentProgress :=
  let sp0 : StudentProgress :=
    match db.studentProgress.find? (fun p => p.studentId == studentId) with
    | some sp => sp
    | none => ⟨studentId, studentName, [], []⟩
  let totalLessons : Nat :=
    match db.courses.find? (fun c => c.id == courseId) with
    | some c => c.lessons.length
    | none => 0
  let cps1 :=
    if sp0.courseProgress.any (fun cp => cp.courseId == courseId) then sp0.courseProgress
    else sp0.courseProgress ++ [⟨courseId, 0, totalLessons, 0, []⟩]
  let cps2 := uqpCourseList courseId lessonId score cps1
  updateHistory today true { sp0 with courseProgress := cps2 }

/-- part_011 `updateQuizProgress` (Dexie version): compute the updated student
record (`uqpRecord`), put it into `studentProgress` and queue exactly one
`UPDATE_PROGRESS` item carrying it. -/
def updateQuizProgress (studentId studentName courseId lessonId : String)
    (score : ℚ) (today : String) (now : Nat) (db : LocalDB) : LocalDB :=
  let sp3 := uqpRecord studentId studentName courseId lessonId score today db
  let db1 := { db with studentProgress := putBy (fun p => p.studentId) sp3 db.studentProgress }
  addQueueItem db1 .UPDATE_PROGRESS (.progress sp3) now

/-! ### Remote (Supabase) rows and fetch responses -/

/-- A `courses` table row as fetched from Supabase (snake_case columns). -/
structure RemoteCourseRow where
  id : String
  title : String
  description : String
  icon : String
  author_id : String
  for_class : Int
deriving DecidableEq, Repr

/-- A `lessons` table row as fetched from Supabase. -/
structure RemoteLessonRow where
  id : String
  course_id : String
  title : String
  content : String
  summary : Option String
  video_url : Option String
  difficulty : Option String
  quiz : List QuizQuestion
  transcript : Option (List TranscriptEntry)
deriving DecidableEq, Repr

/-- A `student_progress` table row as fetched from Supabase; the JSON columns
`course_progress` / `score_history` may be null (`Option`, read with `|| []`). -/
structure RemoteProgressRow where
  student_id : String
  student_name : String
  course_progress : Option (List CourseProgress)
  score_history : Option (List ScoreHistory)
deriving DecidableEq, Repr

/-- A Supabase query response: `{ data, error }`.  `data` may be null even on
success (the code reads it with `|| []`). -/
structure SupaRes (α : Type) where
  data : Option (List α)
  error : Option String
deriving DecidableEq, Repr

/-- JS `x || undefined` on an optional string: the empty string is falsy. -/
def orUndef : Option String → Option String
  | some "" => none
  | x => x

/-- The per-lesson reshaping in `syncDown` of a fetched lesson row into the embedded
`Lesson` document (snake→camel, `hasOfflineVideo: false`). -/
def lessonOfRow (row : RemoteLessonRow) : Lesson :=
  { id := row.id
    title := row.title
    content := row.content
    summary := orUndef row.summary
    videoUrl := orUndef row.video_url
    hasOfflineVideo := false
    transcript := row.transcript
    quiz := row.quiz
    difficulty := orUndef row.difficulty }

/-- The reassembly of nested course documents in `syncDown`: each fetched course row
plus all fetched lesson rows whose `course_id` matches. -/
def courseOfRow (allLessonsSnake : List RemoteLessonRow) (c : RemoteCourseRow) : Course :=
  { id := c.id
    title := c.title
    description := c.description
    icon := c.icon
    authorId := c.author_id
    forClass := c.for_class
    lessons := (allLessonsSnake.filter (fun l => l.course_id == c.id)).map lessonOfRow }

/-- The reshaping of a fetched progress row in `syncDown`, including the failsafe
filter that drops progress entries for courses absent from the server. -/
def progressOfRow (serverCourseIds : List String) (p : RemoteProgressRow) : StudentProgress :=
  { studentId := p.student_id
    studentName := p.student_name
    courseProgress := (p.course_progress.getD []).filter
      (fun cp => serverCourseIds.contains cp.courseId)
    scoreHistory := p.score_history.getD [] }

/-! ### Primitive local writes and write traces

To settle the transactional-atomicity claims, the local writes performed by
`syncDown` and `deleteCourse` are modelled as explicit traces of primitive
`DBWrite` steps.  `txnReplace` is the single atomic step performed by
the db.transaction(rw, courses, studentProgress, profiles, ...) block of `syncDown`
block (three bulk deletes followed by three bulk puts); every other step is an
individual non-transactional write, exactly as issued by the source. -/

inductive DBWrite where
  /-- Dexie db.syncQueue.add of a {type, payload, timestamp} record -/
  | addQueue (t : SyncType) (p : SyncPayload) (ts : Nat)
  /-- Dexie db.courses.delete by id -/
  | delCourse (id : String)
  /-- Dexie db.studentProgress.put of a record -/
  | putProgress (sp : StudentProgress)
  /-- the transaction body of `syncDown` as one atomic step -/
  | txnReplace (coursesToDelete progressToDelete profilesToDelete : List String)
      (coursesPut : List Course) (progressPut : List StudentProgress)
      (profilesPut : List Profile)
deriving DecidableEq, Repr

/-- Apply one primitive write to the local database. -/
def applyWrite (db : LocalDB) : DBWrite → LocalDB
  | .addQueue t p ts => addQueueItem db t p ts
  | .delCourse id => { db with courses := db.courses.filter (fun c => ¬ c.id == id) }
  | .putProgress sp =>
      { db with studentProgress := putBy (fun p => p.studentId) sp db.studentProgress }
  | .txnReplace cDel pDel prDel cPut pPut prPut =>
      { db with
        courses := bulkPutBy (fun c => c.id) cPut (bulkDeleteBy (fun c => c.id) cDel db.courses)
        studentProgress := bulkPutBy (fun p => p.studentId) pPut
          (bulkDeleteBy (fun p => p.studentId) pDel db.studentProgress)
        profiles := bulkPutBy (fun p => p.id) prPut
          (bulkDeleteBy (fun p => p.id) prDel db.profiles) }

/-- Apply a trace of primitive writes in order. -/
def applyTrace (db : LocalDB) (tr : List DBWrite) : LocalDB :=
  tr.foldl applyWrite db

/-- A trace is transactionally atomic for a starting state when a crash after
any proper prefix leaves the database either in the initial or in the final
state — i.e. intermediate states are never observable. -/
def atomicTrace (db : LocalDB) (tr : List DBWrite) : Bool :=
  (List.range tr.length).all fun k =>
    decide (applyTrace db (tr.take k) = db ∨ applyTrace db (tr.take k) = applyTrace db tr)

/-! ### `syncDown` (syncService.ts) -/

/-- The write trace of a successful `syncDown` run: the id-set differences are
computed outside the transaction, and the delete-then-upsert of courses,
studentProgress and profiles runs as one db.transaction(rw, ...) block. -/
def syncDownTrace (coursesRes : SupaRes RemoteCourseRow) (lessonsRes : SupaRes RemoteLessonRow)
    (studentProgressRes : SupaRes RemoteProgressRow) (profilesRes : SupaRes Profile)
    (db : LocalDB) : List DBWrite :=
  let allCoursesSnake := coursesRes.data.getD []
  let allLessonsSnake := lessonsRes.data.getD []
  let allRawProgressSnake := studentProgressRes.data.getD []
  let allProfiles := profilesRes.data.getD []
  let serverCourseIds := allCoursesSnake.map (fun c => c.id)
  let allProgress := allRawProgressSnake.map (progressOfRow serverCourseIds)
  let localCourseIds := db.courses.map (fun c => c.id)
  let localProgressIds := db.studentProgress.map (fun p => p.studentId)
  let localProfileIds := db.profiles.map (fun p => p.id)
  let serverProgressIds := allProgress.map (fun p => p.studentId)
  let serverProfileIds := allProfiles.map (fun p => p.id)
  let pendingCreations := db.syncQueue.filter (fun i => i.type == SyncType.SAVE_COURSE)
  let pendingCreationIds := pendingCreations.filterMap (fun i => i.payload.idOf)
  let coursesToDelete := localCourseIds.filter
    (fun id => ¬ serverCourseIds.contains id ∧ ¬ pendingCreationIds.contains id)
  let progressToDelete := localProgressIds.filter (fun id => ¬ serverProgressIds.contains id)
  let profilesToDelete := localProfileIds.filter (fun id => ¬ serverProfileIds.contains id)
  let coursesWithLessons := allCoursesSnake.map (courseOfRow allLessonsSnake)
  [DBWrite.txnReplace coursesToDelete progressToDelete profilesToDelete
    coursesWithLessons allProgress allProfiles]

/-- The observable outcome of a `syncDown` call: the resulting local database,
whether the catch-block logged an error, and what (if anything) the returned
promise rejects with towards the caller. -/
structure SyncDownOutcome where
  db : LocalDB
  errorLogged : Bool
  raised : Option String
deriving DecidableEq, Repr

/-- syncService.ts `syncDown`: fetch the four tables; if any response carries
an error it is thrown, caught by the surrounding catch-block and logged — the
returned promise still resolves (`raised = none`).  Otherwise the reconciliation
trace (one transaction) is applied. -/
def syncDown (coursesRes : SupaRes RemoteCourseRow) (lessonsRes : SupaRes RemoteLessonRow)
    (studentProgressRes : SupaRes RemoteProgressRow) (profilesRes : SupaRes Profile)
    (db : LocalDB) : SyncDownOutcome :=
  if coursesRes.error.isSome ∨ lessonsRes.error.isSome ∨
      studentProgressRes.error.isSome ∨ profilesRes.error.isSome then
    { db := db, errorLogged := true, raised := none }
  else
    { db := applyTrace db (syncDownTrace coursesRes lessonsRes studentProgressRes profilesRes db)
      errorLogged := false
      raised := none }

/-! ### Aggregate-consistency invariant (claims C6, C7) -/

/-- The spec's aggregate-consistency invariant for one `CourseProgress` entry:
`completedLessons` counts the lessonStatus entries with positive finalScore and
`score` is their mean (0 when there are none). -/
def goodCP (cp : CourseProgress) : Prop :=
  cp.completedLessons = (cp.lessonStatus.filter (fun ls => 0 < ls.finalScore)).length ∧
  cp.score = (if 0 < (cp.lessonStatus.filter (fun ls => 0 < ls.finalScore)).length then
      ((cp.lessonStatus.filter (fun ls => 0 < ls.finalScore)).map (fun ls => ls.finalScore)).sum
        / ((cp.lessonStatus.filter (fun ls => 0 < ls.finalScore)).length : ℚ)
    else 0)

instance (cp : CourseProgress) : Decidable (goodCP cp) := by
  unfold goodCP; infer_instance

lemma goodCP_recomputeCP (cp : CourseProgress) (ls1 : List LessonStatus) :
    goodCP (recomputeCP cp ls1) := by
  simp [goodCP, recomputeCP]

lemma mem_putBy {key : α → String} {x v : α} {l : List α} (hx : x ∈ putBy key v l) :
    x = v ∨ x ∈ l := by
  unfold putBy at hx
  split at hx
  · obtain ⟨y, hy, hxy⟩ := List.mem_map.mp hx
    by_cases h : key y = key v
    · left; simp [h] at hxy; exact hxy.symm
    · right; simp [h] at hxy; exact hxy ▸ hy
  · rcases List.mem_append.mp hx with h | h
    · right; exact h
    · left; simpa using h

lemma mem_updateFirst {p : α → Bool} {f : α → α} {x : α} :
    ∀ {l : List α}, x ∈ updateFirst p f l → x ∈ l ∨ ∃ y ∈ l, x = f y := by
  intro l
  induction l with
  | nil => simp [updateFirst]
  | cons a as ih =>
    simp only [updateFirst]
    split
    · intro hx
      rcases List.mem_cons.mp hx with rfl | h
      · right; exact ⟨a, List.mem_cons_self a as, rfl⟩
      · left; exact List.mem_cons_of_mem _ h
    · intro hx
      rcases List.mem_cons.mp hx with rfl | h
      · left; exact List.mem_cons_self _ _
      · rcases ih h with h' | ⟨y, hy, rfl⟩
        · left; exact List.mem_cons_of_mem _ h'
        · right; exact ⟨y, List.mem_cons_of_mem _ hy, rfl⟩

lemma courseProgress_updateHistory (today : String) (b : Bool) (sp : StudentProgress) :
    (updateHistory today b sp).courseProgress = sp.courseProgress := by
  unfold updateHistory
  split
  · rfl
  · split <;> rfl



lemma goodCP_fresh (cid : String) (tot : Nat) :
    goodCP ⟨cid, 0, tot, 0, []⟩ := by
  constructor <;> simp

lemma goodCP_of_uqpRecord
    (sid sname cid lid : String) (s : ℚ) (today : String) (db : LocalDB)
    (h : ∀ sp ∈ db.studentProgress, ∀ cp ∈ sp.courseProgress, goodCP cp) :
    ∀ cp ∈ (uqpRecord sid sname cid lid s today db).courseProgress, goodCP cp := by
  intro cp hcp
  simp only [uqpRecord, uqpCourseList, courseProgress_updateHistory] at hcp
  have hbase : ∀ x ∈ (StudentProgress.courseProgress
      (match db.studentProgress.find? (fun p : StudentProgress => p.studentId == sid) with
        | some sp => sp
        | none => ⟨sid, sname, [], []⟩)), goodCP x := by
    cases hfind : db.studentProgress.find? (fun p : StudentProgress => p.studentId == sid) with
    | some sp =>
        intro x hx
        exact h sp (List.mem_of_find?_eq_some hfind) x hx
    | none =>
        intro x hx
        exact absurd hx (List.not_mem_nil x)
  rcases mem_updateFirst hcp with hmem | ⟨y, hy, rfl⟩
  · split at hmem
    · exact hbase cp hmem
    · rcases List.mem_append.mp hmem with h' | h'
      · exact hbase cp h'
      · rw [List.mem_singleton] at h'
        subst h'
        exact goodCP_fresh _ _
  · exact goodCP_recomputeCP _ _

/-- Claim C6 — Aggregate consistency: if every `CourseProgress` entry of every
`StudentProgress` record satisfies the aggregate invariant (`completedLessons`
= count of positive-finalScore `lessonStatus` entries, `score` = their mean, 0
when none), then after any `updateQuizProgress` write every entry still does —
the entry the write touches is recomputed to satisfy it by construction. -/
theorem C6_aggregate_consistency
    (sid sname cid lid : String) (s : ℚ) (today : String) (now : Nat) (db : LocalDB)
    (h : ∀ sp ∈ db.studentProgress, ∀ cp ∈ sp.courseProgress, goodCP cp) :
    ∀ sp ∈ (updateQuizProgress sid sname cid lid s today now db).studentProgress,
      ∀ cp ∈ sp.courseProgress, goodCP cp := by
  intro sp hsp cp hcp
  have hq : (updateQuizProgress sid sname cid lid s today now db).studentProgress
      = putBy (fun p => p.studentId) (uqpRecord sid sname cid lid s today db)
          db.studentProgress := rfl
  rw [hq] at hsp
  rcases mem_putBy hsp with rfl | hmem
  · exact goodCP_of_uqpRecord sid sname cid lid s today db h cp hcp
  · exact h sp hmem cp hcp

/-- Witness for C6 at a concrete input: an empty replica, one quiz attempt with
score 0; the theorem yields the invariant for the single produced entry. -/
theorem C6_aggregate_consistency_witness :
    goodCP ⟨"c1", 0, 0, 0, [⟨"l1", 1, 0⟩]⟩ :=
  C6_aggregate_consistency "s1" "S" "c1" "l1" 0 "2026-01-01" 5
    ⟨[], [], [], [], [], [], 0⟩ (by intro sp hsp; cases hsp)
    ⟨"s1", "S", [⟨"c1", 0, 0, 0, [⟨"l1", 1, 0⟩]⟩], [⟨"2026-01-01", 0⟩]⟩ (by decide)
    ⟨"c1", 0, 0, 0, [⟨"l1", 1, 0⟩]⟩ (by decide)

lemma find?_map_replace (key : α → String) (v : α) (l : List α)
    (hany : l.any (fun y => decide (key y = key v)) = true) :
    (l.map (fun y => if key y = key v then v else y)).find? (fun y => key y == key v)
      = some v := by
  induction l with
  | nil => simp at hany
  | cons a as ih =>
    simp only [List.map_cons]
    by_cases ha : key a = key v
    · rw [if_pos ha]
      exact List.find?_cons_of_pos _ (by simp)
    · rw [if_neg ha]
      rw [List.find?_cons_of_neg _ (by simp [ha])]
      apply ih
      simp only [List.any_cons, Bool.or_eq_true, decide_eq_true_eq] at hany
      rcases hany with h' | h'
      · exact absurd h' ha
      · exact h'

lemma find?_putBy (key : α → String) (v : α) (l : List α) :
    (putBy key v l).find? (fun y => key y == key v) = some v := by
  unfold putBy
  split
  · next hany => exact find?_map_replace key v l hany
  · next hany =>
    rw [List.find?_append]
    have hnone : l.find? (fun y => key y == key v) = none := by
      rw [List.find?_eq_none]
      intro x hx
      simp only [beq_iff_eq]
      intro hk
      exact hany (List.any_eq_true.mpr ⟨x, hx, by simp [hk]⟩)
    simp [hnone]

lemma find?_updateFirst (p : α → Bool) (f : α → α) {l : List α} {x : α}
    (h : l.find? p = some x) (hf : p (f x) = true) :
    (updateFirst p f l).find? p = some (f x) := by
  induction l with
  | nil => simp at h
  | cons a as ih =>
    simp only [updateFirst]
    by_cases ha : p a = true
    · rw [if_pos ha]
      rw [List.find?_cons_of_pos _ ha] at h
      injection h with h
      subst h
      exact List.find?_cons_of_pos _ hf
    · rw [if_neg ha]
      rw [List.find?_cons_of_neg _ ha] at h
      rw [List.find?_cons_of_neg _ ha]
      exact ih h

lemma studentId_updateHistory (today : String) (b : Bool) (sp : StudentProgress) :
    (updateHistory today b sp).studentId = sp.studentId := by
  unfold updateHistory
  split
  · rfl
  · split <;> rfl

/-- The access path the content service itself uses to reach a lesson's status:
student record by id, then the course entry, then the lesson entry. -/
def lookupLessonStatus (db : LocalDB) (sid cid lid : String) : Option LessonStatus :=
  (db.studentProgress.find? (fun p => p.studentId == sid)).bind fun sp =>
    (sp.courseProgress.find? (fun c => c.courseId == cid)).bind fun cp =>
      cp.lessonStatus.find? (fun l => l.lessonId == lid)

/-- Claim C7 — Best-score monotonicity: when a `LessonStatus` already exists
for the student/course/lesson, `updateQuizProgress` with score `s` sets
`attempts` to the old value plus one and `finalScore` to `max old s`; in
particular a lower second score leaves `finalScore` unchanged while `attempts`
still increments. -/
theorem C7_best_score_monotonicity
    (sid sname cid lid : String) (s : ℚ) (today : String) (now : Nat) (db : LocalDB)
    (ls : LessonStatus)
    (hls : lookupLessonStatus db sid cid lid = some ls) :
    lookupLessonStatus (updateQuizProgress sid sname cid lid s today now db) sid cid lid
      = some ⟨ls.lessonId, ls.attempts + 1, max ls.finalScore s⟩ ∧
    (s ≤ ls.finalScore → max ls.finalScore s = ls.finalScore) := by
  -- unpack the access path
  unfold lookupLessonStatus at hls
  cases hsp : db.studentProgress.find? (fun p => p.studentId == sid) with
  | none => rw [hsp] at hls; simp at hls
  | some sp =>
  rw [hsp] at hls
  simp only [Option.some_bind] at hls
  cases hcp : sp.courseProgress.find? (fun c => c.courseId == cid) with
  | none => rw [hcp] at hls; simp at hls
  | some cp =>
  rw [hcp] at hls
  simp only [Option.some_bind] at hls
  -- hls : cp.lessonStatus.find? _ = some ls
  refine ⟨?_, fun hle => max_eq_left hle⟩
  have hpredL := List.find?_some hls
  have hanyL : cp.lessonStatus.any (fun l => l.lessonId == lid) = true :=
    List.any_eq_true.mpr ⟨ls, List.mem_of_find?_eq_some hls, hpredL⟩
  have hpredC := List.find?_some hcp
  have hanyC : sp.courseProgress.any (fun c => c.courseId == cid) = true :=
    List.any_eq_true.mpr ⟨cp, List.mem_of_find?_eq_some hcp, hpredC⟩
  have hpredS := List.find?_some hsp
  -- the updated record
  have hrec : uqpRecord sid sname cid lid s today db
      = updateHistory today true
          { sp with courseProgress := uqpCourseList cid lid s sp.courseProgress } := by
    simp only [uqpRecord, hsp, hanyC, if_true]
  have hq : (updateQuizProgress sid sname cid lid s today now db).studentProgress
      = putBy (fun p => p.studentId) (uqpRecord sid sname cid lid s today db)
          db.studentProgress := rfl
  unfold lookupLessonStatus
  rw [hq]
  have hsid : (uqpRecord sid sname cid lid s today db).studentId = sid := by
    rw [hrec, studentId_updateHistory]
    exact beq_iff_eq.mp hpredS
  have hfind1 := find?_putBy (fun p : StudentProgress => p.studentId)
    (uqpRecord sid sname cid lid s today db) db.studentProgress
  rw [hsid] at hfind1
  rw [hfind1]
  simp only [Option.some_bind]
  -- course entry of the updated record
  have hcps : (uqpRecord sid sname cid lid s today db).courseProgress
      = uqpCourseList cid lid s sp.courseProgress := by
    rw [hrec, courseProgress_updateHistory]
  rw [hcps]
  have hfind2 : (uqpCourseList cid lid s sp.courseProgress).find?
      (fun c => c.courseId == cid)
      = some (recomputeCP cp (bumpLessonStatus lid s cp.lessonStatus)) := by
    unfold uqpCourseList
    exact find?_updateFirst _ _ hcp (by exact hpredC)
  rw [hfind2]
  simp only [Option.some_bind]
  -- lesson entry of the updated course progress
  have hbump : bumpLessonStatus lid s cp.lessonStatus
      = updateFirst (fun l => l.lessonId == lid)
          (fun l => { l with attempts := l.attempts + 1, finalScore := max l.finalScore s })
          cp.lessonStatus := by
    simp only [bumpLessonStatus, hanyL, if_true]
  have hlsset : (recomputeCP cp (bumpLessonStatus lid s cp.lessonStatus)).lessonStatus
      = bumpLessonStatus lid s cp.lessonStatus := rfl
  rw [hlsset, hbump]
  have hfind3 := find?_updateFirst (fun l : LessonStatus => l.lessonId == lid)
    (fun l => { l with attempts := l.attempts + 1, finalScore := max l.finalScore s }) hls
    (by exact hpredL)
  rw [hfind3]

/-- Witness for C7: a student with one prior attempt (score 0) on lesson l1;
a second attempt with score 0 increments attempts to 2 and keeps finalScore. -/
theorem C7_best_score_monotonicity_witness :
    lookupLessonStatus
      (updateQuizProgress "s1" "S" "c1" "l1" 0 "2026-01-02" 9
        ⟨[], [], [⟨"s1", "S", [⟨"c1", 1, 1, 0, [⟨"l1", 1, 0⟩]⟩], []⟩], [], [], [], 0⟩)
      "s1" "c1" "l1" = some ⟨"l1", 2, max 0 0⟩ ∧
    ((0:ℚ) ≤ 0 → max (0:ℚ) 0 = 0) :=
  C7_best_score_monotonicity "s1" "S" "c1" "l1" 0 "2026-01-02" 9
    ⟨[], [], [⟨"s1", "S", [⟨"c1", 1, 1, 0, [⟨"l1", 1, 0⟩]⟩], []⟩], [], [], [], 0⟩
    ⟨"l1", 1, 0⟩ (by decide)

/-! ### Claims about `syncDown` (C1, C2, C10) -/

lemma keys_putBy (key : α → String) (x : α) (l : List α) (k : String)
    (hk : k ∈ l.map key) : k ∈ (putBy key x l).map key := by
  unfold putBy
  split
  · have : (l.map (fun y => if key y = key x then x else y)).map key = l.map key := by
      rw [List.map_map]
      apply List.map_congr_left
      intro y _
      by_cases h : key y = key x
      · simp [h]
      · simp [h]
    rw [this]
    exact hk
  · rw [List.map_append]
    exact List.mem_append_left _ hk

lemma keys_bulkPutBy (key : α → String) (xs : List α) (k : String) :
    ∀ l : List α, k ∈ l.map key → k ∈ (bulkPutBy key xs l).map key := by
  induction xs with
  | nil => intro l hk; exact hk
  | cons x xs ih =>
    intro l hk
    exact ih (putBy key x l) (keys_putBy key x l k hk)

lemma keys_bulkDeleteBy (key : α → String) (ids : List String) (l : List α) (k : String)
    (hk : k ∈ l.map key) (hnot : ids.contains k = false) :
    k ∈ (bulkDeleteBy key ids l).map key := by
  obtain ⟨y, hy, rfl⟩ := List.mem_map.mp hk
  refine List.mem_map.mpr ⟨y, ?_, rfl⟩
  unfold bulkDeleteBy
  refine List.mem_filter.mpr ⟨hy, ?_⟩
  simpa using hnot

lemma contains_filter_eq_false (q : String → Bool) (ids : List String) (k : String)
    (hq : q k = false) : (ids.filter q).contains k = false := by
  simp [List.mem_filter, hq]

/-- Claim C1 — Downlink non-destructiveness: a course id that exists locally,
is absent from the fetched remote course rows, and appears as the payload id of
a `SAVE_COURSE` sync-queue item, is still present locally after `syncDown`. -/
theorem C1_downlink_nondestructive
    (cr : SupaRes RemoteCourseRow) (lr : SupaRes RemoteLessonRow)
    (sr : SupaRes RemoteProgressRow) (pr : SupaRes Profile)
    (db : LocalDB) (cid : String)
    (hlocal : cid ∈ db.courses.map (fun c => c.id))
    (hremote : ∀ row ∈ cr.data.getD [], row.id ≠ cid)
    (hqueue : ∃ item ∈ db.syncQueue,
        item.type = SyncType.SAVE_COURSE ∧ item.payload.idOf = some cid) :
    cid ∈ (syncDown cr lr sr pr db).db.courses.map (fun c => c.id) := by
  unfold syncDown
  split
  · exact hlocal
  · simp only [syncDownTrace, applyTrace, List.foldl_cons, List.foldl_nil, applyWrite]
    apply keys_bulkPutBy
    apply keys_bulkDeleteBy _ _ _ _ hlocal
    apply contains_filter_eq_false
    obtain ⟨item, hitem, hty, hid⟩ := hqueue
    have hcidmem : cid ∈ (db.syncQueue.filter
        (fun i => i.type == SyncType.SAVE_COURSE)).filterMap
          (fun i => i.payload.idOf) :=
      List.mem_filterMap.mpr ⟨item, List.mem_filter.mpr ⟨hitem, by simp [hty]⟩, hid⟩
    simp only [decide_eq_false_iff_not, not_and, not_not]
    intro _
    simpa using hcidmem

/-- Witness for C1: a locally created course `c1` queued as `SAVE_COURSE`,
absent from the fetched remote courses, survives `syncDown`. -/
theorem C1_downlink_nondestructive_witness :
    "c1" ∈ (syncDown ⟨some [], none⟩ ⟨some [], none⟩ ⟨some [], none⟩ ⟨some [], none⟩
      ⟨[⟨"c1", "T", "D", "Book", [], "t1", 5⟩], [], [], [],
        [⟨0, SyncType.SAVE_COURSE,
          SyncPayload.course ⟨"c1", "T", "D", "Book", [], "t1", 5⟩, 1⟩], [], 1⟩).db.courses.map
      (fun c => c.id) :=
  C1_downlink_nondestructive ⟨some [], none⟩ ⟨some [], none⟩ ⟨some [], none⟩ ⟨some [], none⟩
    ⟨[⟨"c1", "T", "D", "Book", [], "t1", 5⟩], [], [], [],
      [⟨0, SyncType.SAVE_COURSE,
        SyncPayload.course ⟨"c1", "T", "D", "Book", [], "t1", 5⟩, 1⟩], [], 1⟩ "c1"
    (by decide) (by simp)
    ⟨⟨0, SyncType.SAVE_COURSE, SyncPayload.course ⟨"c1", "T", "D", "Book", [], "t1", 5⟩, 1⟩,
      by decide, by decide, by decide⟩

/-- Claim C2 (amended) — a fetch error in any of the four table reads aborts
the whole reconciliation before any local write: the local database is left
exactly in its prior state and the error is logged; however the surrounding
catch-block swallows the error, so nothing is raised to the caller. -/
theorem C2_fetch_error_aborts
    (cr : SupaRes RemoteCourseRow) (lr : SupaRes RemoteLessonRow)
    (sr : SupaRes RemoteProgressRow) (pr : SupaRes Profile) (db : LocalDB)
    (herr : cr.error.isSome ∨ lr.error.isSome ∨ sr.error.isSome ∨ pr.error.isSome) :
    (syncDown cr lr sr pr db).db = db ∧
    (syncDown cr lr sr pr db).errorLogged = true ∧
    (syncDown cr lr sr pr db).raised = none := by
  unfold syncDown
  rw [if_pos herr]
  exact ⟨rfl, rfl, rfl⟩

/-- Witness for the amended C2 at a concrete erroring fetch. -/
theorem C2_fetch_error_aborts_witness :
    (syncDown ⟨none, some "network down"⟩ ⟨some [], none⟩ ⟨some [], none⟩ ⟨some [], none⟩
        ⟨[], [], [], [], [], [], 0⟩).db = ⟨[], [], [], [], [], [], 0⟩ ∧
    (syncDown ⟨none, some "network down"⟩ ⟨some [], none⟩ ⟨some [], none⟩ ⟨some [], none⟩
        ⟨[], [], [], [], [], [], 0⟩).errorLogged = true ∧
    (syncDown ⟨none, some "network down"⟩ ⟨some [], none⟩ ⟨some [], none⟩ ⟨some [], none⟩
        ⟨[], [], [], [], [], [], 0⟩).raised = none :=
  C2_fetch_error_aborts ⟨none, some "network down"⟩ ⟨some [], none⟩ ⟨some [], none⟩
    ⟨some [], none⟩ ⟨[], [], [], [], [], [], 0⟩ (Or.inl (by decide))

/-- Counterexample to C2 as stated: at a concrete erroring courses fetch the
error is present, yet `syncDown` raises nothing to the caller — the promise
resolves normally (the catch-block only logs), so the error is *not* surfaced. -/
theorem C2_error_not_surfaced_counterexample :
    ((⟨none, some "network down"⟩ : SupaRes RemoteCourseRow).error.isSome = true) ∧
    (syncDown ⟨none, some "network down"⟩ ⟨some [], none⟩ ⟨some [], none⟩ ⟨some [], none⟩
        ⟨[], [], [], [], [], [], 0⟩).raised = none := by
  constructor
  · rfl
  · rfl

/-- Claim C10 — Frame property of reconciliation: `syncDown` never touches the
sync queue or the videos table, on the error path or the success path. -/
theorem C10_syncDown_frame
    (cr : SupaRes RemoteCourseRow) (lr : SupaRes RemoteLessonRow)
    (sr : SupaRes RemoteProgressRow) (pr : SupaRes Profile) (db : LocalDB) :
    (syncDown cr lr sr pr db).db.syncQueue = db.syncQueue ∧
    (syncDown cr lr sr pr db).db.videos = db.videos := by
  unfold syncDown
  split
  · exact ⟨rfl, rfl⟩
  · exact ⟨rfl, rfl⟩

/-! ### `deleteCourse` (part_011) and the transactionality claim (C3) -/

/-- The per-student progress cleanup of `deleteCourse`: splice out the first
courseProgress entry for the deleted course, then recompute the overall
average into today's history entry (only when such an entry already exists —
unlike `updateQuizProgress`, `deleteCourse` does not push a new one). -/
def cascadeRemoveCourse (courseId today : String) (sp : StudentProgress) : StudentProgress :=
  let cps := removeFirst (fun cp => cp.courseId == courseId) sp.courseProgress
  updateHistory today false { sp with courseProgress := cps }

/-- part_011 `deleteCourse` as a trace of the primitive local writes it issues,
in source order: one `DELETE_LESSON` queue add per embedded lesson, one
`DELETE_COURSE` queue add, the local course delete, then for every student
with progress in the course a progress put followed by an `UPDATE_PROGRESS`
queue add.  None of these writes is wrapped in a transaction in the source. -/
def deleteCourseTrace (courseId today : String) (now : Nat) (db : LocalDB) : List DBWrite :=
  match db.courses.find? (fun c => c.id == courseId) with
  | none => []
  | some courseToDelete =>
    (courseToDelete.lessons.map (fun l => DBWrite.addQueue .DELETE_LESSON (.idOnly l.id) now))
    ++ [DBWrite.addQueue .DELETE_COURSE (.idOnly courseId) now]
    ++ [DBWrite.delCourse courseId]
    ++ (db.studentProgress.flatMap (fun sp =>
        if sp.courseProgress.any (fun cp => cp.courseId == courseId) then
          [DBWrite.putProgress (cascadeRemoveCourse courseId today sp),
           DBWrite.addQueue .UPDATE_PROGRESS (.progress (cascadeRemoveCourse courseId today sp)) now]
        else []))

/-- part_011 `deleteCourse`: the local state after issuing all of its writes. -/
def deleteCourse (courseId today : String) (now : Nat) (db : LocalDB) : LocalDB :=
  applyTrace db (deleteCourseTrace courseId today now db)

/-- Claim C3 (amended): `syncDown`'s multi-collection delete-then-upsert runs
inside one local transaction and is atomically visible, but `deleteCourse` is
not transactional — it issues its queue/course/progress writes as separate
sequential steps, so a crash mid-operation can expose an intermediate state. -/
theorem C3_transaction_atomicity
    (cr : SupaRes RemoteCourseRow) (lr : SupaRes RemoteLessonRow)
    (sr : SupaRes RemoteProgressRow) (pr : SupaRes Profile) (db : LocalDB) :
    atomicTrace db (syncDownTrace cr lr sr pr db) = true ∧
    atomicTrace
      ⟨[⟨"c1", "T", "D", "Book", [⟨"l1", "L", "x", none, none, false, none, [], none⟩], "t1", 5⟩],
        [], [⟨"s1", "S", [⟨"c1", 0, 1, 0, []⟩], []⟩], [], [], [], 0⟩
      (deleteCourseTrace "c1" "2026-01-01" 7
        ⟨[⟨"c1", "T", "D", "Book", [⟨"l1", "L", "x", none, none, false, none, [], none⟩], "t1", 5⟩],
          [], [⟨"s1", "S", [⟨"c1", 0, 1, 0, []⟩], []⟩], [], [], [], 0⟩) = false := by
  constructor
  · unfold atomicTrace syncDownTrace
    simp [applyTrace]
  · decide

/-- Counterexample to C3 as stated: on a concrete replica with one course, one
embedded lesson and one student with progress, `deleteCourse`'s write trace is
not atomic — a crash after a proper prefix of its writes exposes a state that
is neither the initial nor the final one. -/
theorem C3_deleteCourse_not_transactional_counterexample :
    atomicTrace
      ⟨[⟨"c2", "T", "D", "Book", [⟨"l2", "L", "x", none, none, false, none, [], none⟩], "t1", 5⟩],
        [], [⟨"s2", "S", [⟨"c2", 0, 1, 0, []⟩], []⟩], [], [], [], 0⟩
      (deleteCourseTrace "c2" "2026-01-05" 3
        ⟨[⟨"c2", "T", "D", "Book", [⟨"l2", "L", "x", none, none, false, none, [], none⟩], "t1", 5⟩],
          [], [⟨"s2", "S", [⟨"c2", 0, 1, 0, []⟩], []⟩], [], [], [], 0⟩) = false := by
  decide

/-! ### `processSyncQueue` (syncService.ts) -/

/-- The remote (Supabase) database state touched by the uplink replayer. -/
structure RemoteDB where
  courses : List RemoteCourseRow
  lessons : List RemoteLessonRow
  student_progress : List RemoteProgressRow
  profiles : List Profile
deriving DecidableEq, Repr

/-- The partial upsert issued by the `DELETE_COURSE` handler: each update row
carries only `student_id` and `course_progress`, so on conflict only the
`course_progress` column is replaced (a row inserted fresh would have null
`student_name`/`score_history`, modelled as `""`/`none`). -/
def upsertOneProgress (acc : List RemoteProgressRow)
    (u : String × List CourseProgress) : List RemoteProgressRow :=
  if acc.any (fun row => row.student_id == u.1) then
    acc.map (fun row => if row.student_id == u.1 then
      { row with course_progress := some u.2 } else row)
  else acc ++ [⟨u.1, "", some u.2, none⟩]

def upsertProgressPartial (rows : List RemoteProgressRow)
    (upd : List (String × List CourseProgress)) : List RemoteProgressRow :=
  upd.foldl upsertOneProgress rows

/-- The row shapes the replayer upserts (camel→snake reshaping of payloads). -/
def progressRowOf (sp : StudentProgress) : RemoteProgressRow :=
  ⟨sp.studentId, sp.studentName, some sp.courseProgress, some sp.scoreHistory⟩

/-- The `courses` upsert row built from a `SAVE_COURSE` payload. -/
def courseRowOf (c : Course) : RemoteCourseRow :=
  ⟨c.id, c.title, c.description, c.icon, c.authorId, c.forClass⟩

/-- The `lessons` upsert row built from a `SAVE_LESSON` payload. -/
def lessonRowOf (l : Lesson) (cid : String) : RemoteLessonRow :=
  ⟨l.id, cid, l.title, l.content, l.summary, l.videoUrl, l.difficulty, l.quiz, l.transcript⟩

/-- One iteration of `processSyncQueue`'s loop body: perform the remote
write(s) for a queue item.  Each remote call consumes one oracle bit:
`true` = the call succeeds, `false` = it returns an error.  Returns the new
remote state, the new call counter, and whether the whole item succeeded
(`DELETE_COURSE` short-circuits on the first failing call, exactly as the
source `break`s with the error). -/
def runAction (oracle : Nat → Bool) (remote : RemoteDB) (calls : Nat)
    (action : SyncQueueItem) : RemoteDB × Nat × Bool :=
  match action.type with
  | .UPDATE_PROGRESS =>
      if oracle calls then
        match action.payload with
        | .progress sp =>
          let rows := putBy (fun r => r.student_id) (progressRowOf sp) remote.student_progress
          ({ remote with student_progress := rows }, calls + 1, true)
        | _ => (remote, calls + 1, true)
      else (remote, calls + 1, false)
  | .SAVE_COURSE =>
      if oracle calls then
        match action.payload with
        | .course c =>
          let rows := putBy (fun r => r.id) (courseRowOf c) remote.courses
          ({ remote with courses := rows }, calls + 1, true)
        | _ => (remote, calls + 1, true)
      else (remote, calls + 1, false)
  | .SAVE_LESSON =>
      if oracle calls then
        match action.payload with
        | .lesson l cid =>
          let rows := putBy (fun r => r.id) (lessonRowOf l cid) remote.lessons
          ({ remote with lessons := rows }, calls + 1, true)
        | _ => (remote, calls + 1, true)
      else (remote, calls + 1, false)
  | .DELETE_LESSON =>
      if oracle calls then
        let rows := remote.lessons.filter (fun r => ¬ r.id == action.payload.idOf.getD "")
        ({ remote with lessons := rows }, calls + 1, true)
      else (remote, calls + 1, false)
  | .DELETE_COURSE =>
      let cid := action.payload.idOf.getD ""
      if ¬ oracle calls then (remote, calls + 1, false) else
      let r1 := { remote with lessons := remote.lessons.filter (fun r => ¬ r.course_id == cid) }
      if ¬ oracle (calls + 1) then (r1, calls + 2, false) else
      let r2 := { r1 with courses := r1.courses.filter (fun r => ¬ r.id == cid) }
      if ¬ oracle (calls + 2) then (r2, calls + 3, false) else
      let progressUpdates := r2.student_progress.filterMap (fun p =>
        let updated := (p.course_progress.getD []).filter (fun cp => ¬ cp.courseId == cid)
        if updated.length < (p.course_progress.getD []).length then
          some (p.student_id, updated)
        else none)
      if progressUpdates.length == 0 then (r2, calls + 3, true) else
      if ¬ oracle (calls + 3) then (r2, calls + 4, false) else
      let rows := upsertProgressPartial r2.student_progress progressUpdates
      ({ r2 with student_progress := rows }, calls + 4, true)

/-- Stable insertion of a queue item into a timestamp-sorted list (Dexie
orderBy(timestamp): ascending timestamp, ties broken by the ascending
auto-increment primary key, i.e. insertion order). -/
def insertByTs (a : SyncQueueItem) : List SyncQueueItem → List SyncQueueItem
  | [] => [a]
  | b :: bs => if a.timestamp ≤ b.timestamp then a :: b :: bs else b :: insertByTs a bs

/-- Dexie db.syncQueue.orderBy(timestamp).toArray() — stable sort by timestamp. -/
def sortByTs : List SyncQueueItem → List SyncQueueItem
  | [] => []
  | a :: rest => insertByTs a (sortByTs rest)

/-- The outcome of a `processSyncQueue` run: final local and remote state plus
the per-item log (the item and whether its remote write succeeded), in the
order the items were attempted. -/
structure ProcResult where
  db : LocalDB
  remote : RemoteDB
  calls : Nat
  log : List (SyncQueueItem × Bool)
deriving Repr

/-- The sequential loop of `processSyncQueue`: attempt each item in order; on
success delete the queue row by primary key; on failure log and leave the item
untouched, continuing with the rest of the batch. -/
def processItems (oracle : Nat → Bool) :
    List SyncQueueItem → LocalDB → RemoteDB → Nat → List (SyncQueueItem × Bool) → ProcResult
  | [], db, remote, calls, acc => ⟨db, remote, calls, acc⟩
  | a :: rest, db, remote, calls, acc =>
    let res := runAction oracle remote calls a
    let db1 := if res.2.2 then
        { db with syncQueue := db.syncQueue.filter (fun i => ¬ i.id == a.id) }
      else db
    processItems oracle rest db1 res.1 res.2.1 (acc ++ [(a, res.2.2)])

/-- syncService.ts `processSyncQueue`: read the whole queue ordered by
timestamp ascending and replay it strictly sequentially. -/
def processSyncQueue (oracle : Nat → Bool) (db : LocalDB) (remote : RemoteDB) : ProcResult :=
  processItems oracle (sortByTs db.syncQueue) db remote 0 []

/-! ### Claims C4 and C5 — per-item outcome and FIFO order of the replayer -/

/-- The per-item outcomes of replaying a list of items in order, threading the
remote state and the call counter exactly as `processItems` does. -/
def runOutcomes (oracle : Nat → Bool) (remote : RemoteDB) (calls : Nat) :
    List SyncQueueItem → List (SyncQueueItem × Bool)
  | [] => []
  | a :: rest =>
    (a, (runAction oracle remote calls a).2.2) ::
      runOutcomes oracle (runAction oracle remote calls a).1
        (runAction oracle remote calls a).2.1 rest

/-- The queue-table effect of one logged outcome: a succeeded item's row is
deleted by primary key, a failed item's row is left untouched. -/
def applyOutcome (q : List SyncQueueItem) (ab : SyncQueueItem × Bool) :
    List SyncQueueItem :=
  if ab.2 then q.filter (fun i => ¬ i.id == ab.1.id) else q

lemma processItems_log (oracle : Nat → Bool) :
    ∀ (items : List SyncQueueItem) (db : LocalDB) (remote : RemoteDB)
      (calls : Nat) (acc : List (SyncQueueItem × Bool)),
      (processItems oracle items db remote calls acc).log
        = acc ++ runOutcomes oracle remote calls items := by
  intro items
  induction items with
  | nil => intro db remote calls acc; simp [processItems, runOutcomes]
  | cons a rest ih =>
    intro db remote calls acc
    simp only [processItems, runOutcomes]
    rw [ih]
    simp

lemma processItems_queue (oracle : Nat → Bool) :
    ∀ (items : List SyncQueueItem) (db : LocalDB) (remote : RemoteDB)
      (calls : Nat) (acc : List (SyncQueueItem × Bool)),
      (processItems oracle items db remote calls acc).db.syncQueue
        = (runOutcomes oracle remote calls items).foldl applyOutcome db.syncQueue := by
  intro items
  induction items with
  | nil => intro db remote calls acc; simp [processItems, runOutcomes]
  | cons a rest ih =>
    intro db remote calls acc
    simp only [processItems, runOutcomes, List.foldl_cons]
    rw [ih]
    by_cases hok : (runAction oracle remote calls a).2.2 = true
    · simp [hok, applyOutcome]
    · simp only [Bool.not_eq_true] at hok
      simp [hok, applyOutcome]

lemma runOutcomes_map_fst (oracle : Nat → Bool) :
    ∀ (items : List SyncQueueItem) (remote : RemoteDB) (calls : Nat),
      (runOutcomes oracle remote calls items).map Prod.fst = items := by
  intro items
  induction items with
  | nil => intro remote calls; simp [runOutcomes]
  | cons a rest ih =>
    intro remote calls
    simp only [runOutcomes, List.map_cons]
    rw [ih]

lemma mem_foldl_applyOutcome_subset :
    ∀ (outs : List (SyncQueueItem × Bool)) (q : List SyncQueueItem) (x : SyncQueueItem),
      x ∈ outs.foldl applyOutcome q → x ∈ q := by
  intro outs
  induction outs with
  | nil => intro q x hx; exact hx
  | cons o outs ih =>
    intro q x hx
    rw [List.foldl_cons] at hx
    have := ih _ _ hx
    unfold applyOutcome at this
    split at this
    · exact (List.mem_filter.mp this).1
    · exact this

lemma not_mem_foldl_applyOutcome
    {a x : SyncQueueItem} (hid : x.id = a.id) :
    ∀ (outs : List (SyncQueueItem × Bool)) (q : List SyncQueueItem),
      (a, true) ∈ outs → x ∉ outs.foldl applyOutcome q := by
  intro outs
  induction outs with
  | nil => intro q ha; cases ha
  | cons o outs ih =>
    intro q ha
    rcases List.mem_cons.mp ha with rfl | ha'
    · -- the success happens first: x's row is removed and never reinstated
      rw [List.foldl_cons]
      intro hx
      have hx' := mem_foldl_applyOutcome_subset _ _ _ hx
      unfold applyOutcome at hx'
      simp only [if_pos] at hx'
      have := (List.mem_filter.mp hx').2
      simp [hid] at this
    · intro hx
      rw [List.foldl_cons] at hx
      exact ih _ ha' hx

lemma mem_foldl_applyOutcome
    {x : SyncQueueItem} :
    ∀ (outs : List (SyncQueueItem × Bool)) (q : List SyncQueueItem),
      x ∈ q → (∀ a : SyncQueueItem, (a, true) ∈ outs → a.id ≠ x.id) →
      x ∈ outs.foldl applyOutcome q := by
  intro outs
  induction outs with
  | nil => intro q hx _; exact hx
  | cons o outs ih =>
    intro q hx hsafe
    rw [List.foldl_cons]
    apply ih
    · unfold applyOutcome
      split
      · next hok =>
        refine List.mem_filter.mpr ⟨hx, ?_⟩
        have : o.1.id ≠ x.id := by
          apply hsafe
          rw [← hok]  -- placeholder
          exact List.mem_cons_self o outs
        simp [Ne.symm this]
      · exact hx
    · intro a ha
      exact hsafe a (List.mem_cons_of_mem _ ha)

lemma pairs_unique {l : List (SyncQueueItem × Bool)}
    (h : (l.map Prod.fst).Nodup) {x : SyncQueueItem} {b₁ b₂ : Bool}
    (h1 : (x, b₁) ∈ l) (h2 : (x, b₂) ∈ l) : b₁ = b₂ := by
  induction l with
  | nil => cases h1
  | cons o l ih =>
    simp only [List.map_cons, List.nodup_cons] at h
    rcases List.mem_cons.mp h1 with h1' | h1'
    · rcases List.mem_cons.mp h2 with h2' | h2'
      · have : (x, b₁) = (x, b₂) := h1'.trans h2'.symm
        exact congrArg Prod.snd this
      · exfalso
        apply h.1
        refine List.mem_map.mpr ⟨(x, b₂), h2', ?_⟩
        rw [← h1']
    · rcases List.mem_cons.mp h2 with h2' | h2'
      · exfalso
        apply h.1
        refine List.mem_map.mpr ⟨(x, b₁), h1', ?_⟩
        rw [← h2']
      · exact ih h.2 h1' h2'

lemma insertByTs_perm (a : SyncQueueItem) (l : List SyncQueueItem) :
    (insertByTs a l).Perm (a :: l) := by
  induction l with
  | nil => simp [insertByTs]
  | cons b bs ih =>
    unfold insertByTs
    split
    · exact List.Perm.refl _
    · exact (ih.cons b).trans (List.Perm.swap a b bs)

lemma sortByTs_perm (l : List SyncQueueItem) : (sortByTs l).Perm l := by
  induction l with
  | nil => simp [sortByTs]
  | cons a rest ih =>
    unfold sortByTs
    exact (insertByTs_perm a (sortByTs rest)).trans (ih.cons a)

lemma insertByTs_sorted (a : SyncQueueItem) {l : List SyncQueueItem}
    (h : l.Sorted (fun x y => x.timestamp ≤ y.timestamp)) :
    (insertByTs a l).Sorted (fun x y => x.timestamp ≤ y.timestamp) := by
  induction l with
  | nil => simp [insertByTs]
  | cons b bs ih =>
    rw [List.sorted_cons] at h
    unfold insertByTs
    split
    · next hle =>
      rw [List.sorted_cons]
      constructor
      · intro c hc
        rcases List.mem_cons.mp hc with rfl | hc'
        · exact hle
        · exact le_trans hle (h.1 c hc')
      · rw [List.sorted_cons]
        exact h
    · next hgt =>
      rw [List.sorted_cons]
      constructor
      · intro c hc
        have hc2 := (insertByTs_perm a bs).mem_iff.mp hc
        rcases List.mem_cons.mp hc2 with rfl | hc'
        · exact le_of_not_le hgt
        · exact h.1 c hc'
      · exact ih h.2

lemma sortByTs_sorted (l : List SyncQueueItem) :
    (sortByTs l).Sorted (fun x y => x.timestamp ≤ y.timestamp) := by
  induction l with
  | nil => simp [sortByTs]
  | cons a rest ih =>
    unfold sortByTs
    exact insertByTs_sorted a ih

lemma sortByTs_of_sorted {l : List SyncQueueItem}
    (h : l.Sorted (fun x y => x.timestamp ≤ y.timestamp)) : sortByTs l = l := by
  induction l with
  | nil => rfl
  | cons a rest ih =>
    rw [List.sorted_cons] at h
    unfold sortByTs
    rw [ih h.2]
    cases rest with
    | nil => rfl
    | cons b bs =>
      unfold insertByTs
      rw [if_pos (h.1 b (List.mem_cons_self b bs))]

lemma sorted_get_lt (l : List SyncQueueItem)
    (hs : l.Sorted (fun x y => x.timestamp ≤ y.timestamp))
    (i j : ℕ) (hi : i < l.length) (hj : j < l.length)
    (h : (l.get ⟨i, hi⟩).timestamp < (l.get ⟨j, hj⟩).timestamp) : i < j := by
  by_contra hij
  rcases Nat.lt_or_ge j i with hji | hji
  · have := List.Sorted.rel_get_of_lt hs (show (⟨j, hj⟩ : Fin l.length) < ⟨i, hi⟩ from hji)
    exact absurd h (not_lt_of_le this)
  · have : i = j := Nat.le_antisymm hji (Nat.le_of_not_lt hij)
    subst this
    exact lt_irrefl _ h

/-- Claim C5 — FIFO replay: `processSyncQueue` attempts every queue item
(the attempted list is a permutation of the queue) strictly sequentially in
ascending-timestamp order: an attempted item with a strictly smaller timestamp
is always attempted at an earlier position. -/
theorem C5_fifo_replay (oracle : Nat → Bool) (db : LocalDB) (remote : RemoteDB) :
    ((processSyncQueue oracle db remote).log.map Prod.fst).Perm db.syncQueue ∧
    ∀ (i j : ℕ)
      (hi : i < ((processSyncQueue oracle db remote).log.map Prod.fst).length)
      (hj : j < ((processSyncQueue oracle db remote).log.map Prod.fst).length),
      (((processSyncQueue oracle db remote).log.map Prod.fst).get ⟨i, hi⟩).timestamp
        < (((processSyncQueue oracle db remote).log.map Prod.fst).get ⟨j, hj⟩).timestamp →
      i < j := by
  have hlog : (processSyncQueue oracle db remote).log.map Prod.fst = sortByTs db.syncQueue := by
    unfold processSyncQueue
    rw [processItems_log]
    rw [List.nil_append]
    exact runOutcomes_map_fst oracle _ remote 0
  constructor
  · rw [hlog]
    exact sortByTs_perm _
  · intro i j hi hj h
    refine sorted_get_lt _ ?_ i j hi hj h
    rw [hlog]
    exact sortByTs_sorted _

/-- Claim C4 — a queue item is deleted from the sync queue iff its remote write
was confirmed successful: every item of the queue is attempted (appears in the
run's log with some outcome), and an item remains in the final queue exactly
when its outcome was a failure — so failed items stay untouched and one item's
failure does not stop the rest of the batch. -/
theorem C4_item_deleted_iff_success (oracle : Nat → Bool) (db : LocalDB) (remote : RemoteDB)
    (hnodup : (db.syncQueue.map (fun i => i.id)).Nodup) :
    (∀ x ∈ db.syncQueue, ∃ b, (x, b) ∈ (processSyncQueue oracle db remote).log) ∧
    (∀ x ∈ db.syncQueue,
      (x ∈ (processSyncQueue oracle db remote).db.syncQueue ↔
        (x, false) ∈ (processSyncQueue oracle db remote).log)) := by
  have hlog : (processSyncQueue oracle db remote).log
      = runOutcomes oracle remote 0 (sortByTs db.syncQueue) := by
    unfold processSyncQueue
    rw [processItems_log, List.nil_append]
  have hqueue : (processSyncQueue oracle db remote).db.syncQueue
      = (runOutcomes oracle remote 0 (sortByTs db.syncQueue)).foldl
          applyOutcome db.syncQueue := by
    unfold processSyncQueue
    rw [processItems_queue]
  have hfst : (runOutcomes oracle remote 0 (sortByTs db.syncQueue)).map Prod.fst
      = sortByTs db.syncQueue := runOutcomes_map_fst oracle _ remote 0
  have hperm : (sortByTs db.syncQueue).Perm db.syncQueue := sortByTs_perm _
  have hnodup' : ((sortByTs db.syncQueue).map (fun i => i.id)).Nodup :=
    ((hperm.map _).nodup_iff).mpr hnodup
  have hpairmem : ∀ x ∈ db.syncQueue, ∃ b : Bool,
      (x, b) ∈ runOutcomes oracle remote 0 (sortByTs db.syncQueue) := by
    intro x hx
    have hx' : x ∈ (runOutcomes oracle remote 0 (sortByTs db.syncQueue)).map Prod.fst := by
      rw [hfst]
      exact hperm.mem_iff.mpr hx
    obtain ⟨p, hp, hpx⟩ := List.mem_map.mp hx'
    refine ⟨p.2, ?_⟩
    rw [← hpx]
    exact hp
  constructor
  · intro x hx
    rw [hlog]
    exact hpairmem x hx
  · intro x hx
    rw [hqueue, hlog]
    constructor
    · intro hxq
      obtain ⟨b, hb⟩ := hpairmem x hx
      cases b with
      | false => exact hb
      | true =>
        exact absurd hxq (not_mem_foldl_applyOutcome rfl _ db.syncQueue hb)
    · intro hxf
      apply mem_foldl_applyOutcome _ db.syncQueue hx
      intro a ha hidEq
      have ha1 : a ∈ sortByTs db.syncQueue := by
        rw [← hfst]
        exact List.mem_map.mpr ⟨(a, true), ha, rfl⟩
      have hx1 : x ∈ sortByTs db.syncQueue := hperm.mem_iff.mpr hx
      have hax : a = x := List.inj_on_of_nodup_map hnodup' ha1 hx1 hidEq
      subst hax
      have hfstnodup : ((runOutcomes oracle remote 0 (sortByTs db.syncQueue)).map
          Prod.fst).Nodup := by
        rw [hfst]
        exact List.Nodup.of_map _ hnodup'
      exact Bool.noConfusion (pairs_unique hfstnodup ha hxf)

/-- A remote oracle that accepts every call. -/
def oracleAllOk : Nat → Bool := fun _ => true

/-- A remote oracle that fails the first call and accepts the rest. -/
def oracleFailFirst : Nat → Bool := fun n => decide (1 ≤ n)

/-- Witness for C4: with two queued items and a remote that rejects the first
call, the first item stays in the queue and is logged as failed, while the
second is still attempted and deleted. -/
theorem C4_item_deleted_iff_success_witness :
    (⟨0, SyncType.UPDATE_PROGRESS, SyncPayload.progress ⟨"s1", "S", [], []⟩, 1⟩
        ∈ (processSyncQueue oracleFailFirst
            ⟨[], [], [], [],
              [⟨0, SyncType.UPDATE_PROGRESS, SyncPayload.progress ⟨"s1", "S", [], []⟩, 1⟩,
               ⟨1, SyncType.DELETE_LESSON, SyncPayload.idOnly "l9", 2⟩], [], 2⟩
            ⟨[], [], [], []⟩).db.syncQueue ↔
      (⟨0, SyncType.UPDATE_PROGRESS, SyncPayload.progress ⟨"s1", "S", [], []⟩, 1⟩, false)
        ∈ (processSyncQueue oracleFailFirst
            ⟨[], [], [], [],
              [⟨0, SyncType.UPDATE_PROGRESS, SyncPayload.progress ⟨"s1", "S", [], []⟩, 1⟩,
               ⟨1, SyncType.DELETE_LESSON, SyncPayload.idOnly "l9", 2⟩], [], 2⟩
            ⟨[], [], [], []⟩).log) :=
  (C4_item_deleted_iff_success oracleFailFirst
      ⟨[], [], [], [],
        [⟨0, SyncType.UPDATE_PROGRESS, SyncPayload.progress ⟨"s1", "S", [], []⟩, 1⟩,
         ⟨1, SyncType.DELETE_LESSON, SyncPayload.idOnly "l9", 2⟩], [], 2⟩
      ⟨[], [], [], []⟩ (by decide)).2
    ⟨0, SyncType.UPDATE_PROGRESS, SyncPayload.progress ⟨"s1", "S", [], []⟩, 1⟩ (by decide)

/-! ### Claim C8 — cascade correctness of course deletion -/

/-- The `(type, payload, timestamp)` view of a queue item — everything the
replayer's remote effect depends on (the auto-increment key only drives the
local row deletion). -/
def tpOf (i : SyncQueueItem) : SyncType × SyncPayload × Nat :=
  (i.type, i.payload, i.timestamp)

/-- The queue rows a write trace appends, in order (no primitive write ever
removes queue rows). -/
def addsOf : List DBWrite → List (SyncType × SyncPayload × Nat)
  | [] => []
  | .addQueue t p ts :: tr => (t, p, ts) :: addsOf tr
  | .delCourse _ :: tr => addsOf tr
  | .putProgress _ :: tr => addsOf tr
  | .txnReplace _ _ _ _ _ _ :: tr => addsOf tr

lemma applyTrace_queue_tp :
    ∀ (tr : List DBWrite) (db : LocalDB),
      (applyTrace db tr).syncQueue.map tpOf = db.syncQueue.map tpOf ++ addsOf tr := by
  intro tr
  induction tr with
  | nil => intro db; simp [applyTrace, addsOf]
  | cons w tr ih =>
    intro db
    cases w with
    | addQueue t p ts =>
      have : applyTrace db (DBWrite.addQueue t p ts :: tr)
          = applyTrace (applyWrite db (DBWrite.addQueue t p ts)) tr := rfl
      rw [this, ih]
      simp [applyWrite, addQueueItem, addsOf, tpOf]
    | delCourse cid =>
      rw [show applyTrace db (DBWrite.delCourse cid :: tr)
          = applyTrace (applyWrite db (DBWrite.delCourse cid)) tr from rfl, ih]
      simp [applyWrite, addsOf]
    | putProgress sp =>
      rw [show applyTrace db (DBWrite.putProgress sp :: tr)
          = applyTrace (applyWrite db (DBWrite.putProgress sp)) tr from rfl, ih]
      simp [applyWrite, addsOf]
    | txnReplace a b c d e f =>
      rw [show applyTrace db (DBWrite.txnReplace a b c d e f :: tr)
          = applyTrace (applyWrite db (DBWrite.txnReplace a b c d e f)) tr from rfl, ih]
      simp [applyWrite, addsOf]

lemma addsOf_append : ∀ (t1 t2 : List DBWrite), addsOf (t1 ++ t2) = addsOf t1 ++ addsOf t2 := by
  intro t1
  induction t1 with
  | nil => intro t2; simp [addsOf]
  | cons w t1 ih =>
    intro t2
    cases w <;> simp [addsOf, ih]

lemma addsOf_map_addQueue {α : Type} (T : SyncType) (f : α → SyncPayload) (ts : Nat) :
    ∀ l : List α,
      addsOf (l.map (fun x => DBWrite.addQueue T (f x) ts)) = l.map (fun x => (T, f x, ts)) := by
  intro l
  induction l with
  | nil => rfl
  | cons x l ih => simp [addsOf, ih]

lemma addsOf_flatMap_branch (cid today : String) (now : Nat) :
    ∀ l : List StudentProgress,
      addsOf (l.flatMap (fun sp =>
        if sp.courseProgress.any (fun cp => cp.courseId == cid) then
          [DBWrite.putProgress (cascadeRemoveCourse cid today sp),
           DBWrite.addQueue .UPDATE_PROGRESS
             (.progress (cascadeRemoveCourse cid today sp)) now]
        else []))
      = l.flatMap (fun sp =>
          if sp.courseProgress.any (fun cp => cp.courseId == cid) then
            [(SyncType.UPDATE_PROGRESS,
              SyncPayload.progress (cascadeRemoveCourse cid today sp), now)]
          else []) := by
  intro l
  induction l with
  | nil => rfl
  | cons sp l ih =>
    rw [List.flatMap_cons, List.flatMap_cons, addsOf_append, ih]
    by_cases h : sp.courseProgress.any (fun cp => cp.courseId == cid) = true
    · rw [if_pos h, if_pos h]
      rfl
    · rw [if_neg h, if_neg h]
      rfl

lemma deleteCourse_queue_tp (cid today : String) (now : Nat) (db : LocalDB) (course : Course)
    (hfind : db.courses.find? (fun c => c.id == cid) = some course) :
    (deleteCourse cid today now db).syncQueue.map tpOf
      = db.syncQueue.map tpOf
        ++ course.lessons.map (fun l => (SyncType.DELETE_LESSON, SyncPayload.idOnly l.id, now))
        ++ [(SyncType.DELETE_COURSE, SyncPayload.idOnly cid, now)]
        ++ db.studentProgress.flatMap (fun sp =>
            if sp.courseProgress.any (fun cp => cp.courseId == cid) then
              [(SyncType.UPDATE_PROGRESS,
                SyncPayload.progress (cascadeRemoveCourse cid today sp), now)]
            else []) := by
  unfold deleteCourse
  rw [applyTrace_queue_tp]
  unfold deleteCourseTrace
  rw [hfind]
  rw [addsOf_append, addsOf_append, addsOf_append]
  rw [addsOf_map_addQueue, addsOf_flatMap_branch]
  simp [addsOf]

lemma length_filter_type (q : List SyncQueueItem) (T : SyncType) :
    (q.filter (fun i => i.type == T)).length
      = ((q.map tpOf).filter (fun t => t.1 == T)).length := by
  induction q with
  | nil => rfl
  | cons a q ih =>
    by_cases h : a.type == T
    · simp [List.filter_cons, tpOf, h, ih]
    · simp [List.filter_cons, tpOf, h, ih]

lemma filter_map_const_true {α β : Type} (p : β → Bool) (g : α → β)
    (hp : ∀ x, p (g x) = true) (l : List α) : (l.map g).filter p = l.map g := by
  rw [List.filter_eq_self]
  intro b hb
  obtain ⟨x, _, rfl⟩ := List.mem_map.mp hb
  exact hp x

lemma filter_map_const_false {α β : Type} (p : β → Bool) (g : α → β)
    (hp : ∀ x, p (g x) = false) (l : List α) : (l.map g).filter p = [] := by
  rw [List.filter_eq_nil_iff]
  intro b hb
  obtain ⟨x, _, rfl⟩ := List.mem_map.mp hb
  simp [hp x]

lemma length_filter_flatMap_if_true {β : Type} (qual : StudentProgress → Bool)
    (g : StudentProgress → β) (p : β → Bool) (hp : ∀ sp, p (g sp) = true) :
    ∀ l : List StudentProgress,
      ((l.flatMap (fun sp => if qual sp then [g sp] else [])).filter p).length
        = (l.filter qual).length := by
  intro l
  induction l with
  | nil => rfl
  | cons sp l ih =>
    rw [List.flatMap_cons, List.filter_append, List.length_append, ih, List.filter_cons]
    by_cases h : qual sp = true
    · rw [if_pos h, if_pos h]
      simp [hp sp, Nat.add_comm]
    · rw [if_neg h, if_neg h]
      simp

lemma length_filter_flatMap_if_false {β : Type} (qual : StudentProgress → Bool)
    (g : StudentProgress → β) (p : β → Bool) (hp : ∀ sp, p (g sp) = false) :
    ∀ l : List StudentProgress,
      ((l.flatMap (fun sp => if qual sp then [g sp] else [])).filter p).length = 0 := by
  intro l
  induction l with
  | nil => rfl
  | cons sp l ih =>
    rw [List.flatMap_cons, List.filter_append, List.length_append, ih]
    by_cases h : qual sp = true
    · rw [if_pos h]
      simp [hp sp]
    · rw [if_neg h]
      simp

lemma deleteCourse_counts (cid today : String) (now : Nat) (db : LocalDB) (course : Course)
    (hfind : db.courses.find? (fun c => c.id == cid) = some course)
    (hq0 : db.syncQueue = []) :
    ((deleteCourse cid today now db).syncQueue.filter
        (fun i => i.type == SyncType.DELETE_LESSON)).length = course.lessons.length ∧
    ((deleteCourse cid today now db).syncQueue.filter
        (fun i => i.type == SyncType.DELETE_COURSE)).length = 1 ∧
    ((deleteCourse cid today now db).syncQueue.filter
        (fun i => i.type == SyncType.UPDATE_PROGRESS)).length
      = (db.studentProgress.filter
          (fun sp => sp.courseProgress.any (fun cp => cp.courseId == cid))).length := by
  have himg := deleteCourse_queue_tp cid today now db course hfind
  rw [hq0] at himg
  simp only [List.map_nil, List.nil_append] at himg
  refine ⟨?_, ?_, ?_⟩
  · rw [length_filter_type _ SyncType.DELETE_LESSON, himg]
    rw [List.filter_append, List.filter_append, List.length_append, List.length_append]
    rw [filter_map_const_true _ _ (fun l => by simp)]
    rw [length_filter_flatMap_if_false _ _ _ (fun sp => by simp)]
    simp
  · rw [length_filter_type _ SyncType.DELETE_COURSE, himg]
    rw [List.filter_append, List.filter_append, List.length_append, List.length_append]
    rw [filter_map_const_false _ _ (fun l => by simp)]
    rw [length_filter_flatMap_if_false _ _ _ (fun sp => by simp)]
    simp
  · rw [length_filter_type _ SyncType.UPDATE_PROGRESS, himg]
    rw [List.filter_append, List.filter_append, List.length_append, List.length_append]
    rw [filter_map_const_false _ _ (fun l => by simp)]
    rw [length_filter_flatMap_if_true _ _ _ (fun sp => by simp)]
    simp

/-- The C8 post-condition on the remote state: no lesson row carries the
deleted course id and no student-progress row's course_progress list contains
it. -/
def noCid (cid : String) (r : RemoteDB) : Prop :=
  (∀ lr ∈ r.lessons, lr.course_id ≠ cid) ∧
  (∀ p ∈ r.student_progress, ∀ cp ∈ p.course_progress.getD [], cp.courseId ≠ cid)

lemma upsert_all_free (cid : String) :
    ∀ (upd : List (String × List CourseProgress)) (rows : List RemoteProgressRow),
      (∀ u ∈ upd, ∀ cp ∈ u.2, cp.courseId ≠ cid) →
      (∀ r ∈ rows, (∀ u ∈ upd, u.1 ≠ r.student_id) →
        ∀ cp ∈ r.course_progress.getD [], cp.courseId ≠ cid) →
      ∀ row ∈ upsertProgressPartial rows upd,
        ∀ cp ∈ row.course_progress.getD [], cp.courseId ≠ cid := by
  intro upd
  induction upd with
  | nil =>
    intro rows _ h2 row hrow
    exact h2 row hrow (by simp)
  | cons u upd ih =>
    intro rows h1 h2 row hrow
    have hrow' : row ∈ upsertProgressPartial (upsertOneProgress rows u) upd := hrow
    refine ih (upsertOneProgress rows u) ?_ ?_ row hrow'
    · intro u' hu'
      exact h1 u' (List.mem_cons_of_mem _ hu')
    · intro r' hr' hsafe
      unfold upsertOneProgress at hr'
      split at hr'
      · -- some existing row matches: every matching row is overwritten
        obtain ⟨r0, hr0, hr0eq⟩ := List.mem_map.mp hr'
        by_cases hmatch : (r0.student_id == u.1) = true
        · rw [if_pos hmatch] at hr0eq
          rw [← hr0eq]
          simp only [Option.getD_some]
          exact fun cp hcp => h1 u (List.mem_cons_self u upd) cp hcp
        · rw [if_neg hmatch] at hr0eq
          rw [← hr0eq]
          apply h2 r0 hr0
          intro u'' hu''
          rcases List.mem_cons.mp hu'' with rfl | h''
          · intro heq
            exact hmatch (by simp [heq])
          · rw [hr0eq]
            exact hsafe u'' h''
      · next hany =>
        rcases List.mem_append.mp hr' with hr0 | hfresh
        · apply h2 r' hr0
          intro u'' hu''
          rcases List.mem_cons.mp hu'' with rfl | h''
          · intro heq
            apply hany
            exact List.any_eq_true.mpr ⟨r', hr0, by simp [heq]⟩
          · exact hsafe u'' h''
        · have : r' = ⟨u.1, "", some u.2, none⟩ := by simpa using hfresh
          rw [this]
          simp only [Option.getD_some]
          exact fun cp hcp => h1 u (List.mem_cons_self u upd) cp hcp

lemma filterMap_nil_forall {α β : Type} {f : α → Option β} {l : List α}
    (h : l.filterMap f = []) : ∀ x ∈ l, f x = none := by
  intro x hx
  cases hfx : f x with
  | none => rfl
  | some b =>
    exfalso
    have : b ∈ l.filterMap f := List.mem_filterMap.mpr ⟨x, hx, hfx⟩
    rw [h] at this
    cases this

lemma no_cid_of_not_shorter (cid : String) (cps : List CourseProgress)
    (h : ¬ (cps.filter (fun cp => ¬ cp.courseId == cid)).length < cps.length) :
    ∀ cp ∈ cps, cp.courseId ≠ cid := by
  intro cp hcp heq
  apply h
  rw [List.length_filter_lt_length_iff_exists]
  exact ⟨cp, hcp, by simp [heq]⟩

lemma runAction_deleteCourse_noCid (cid : String) (r : RemoteDB) (calls : Nat)
    (a : SyncQueueItem) (hty : a.type = SyncType.DELETE_COURSE)
    (hpl : a.payload = SyncPayload.idOnly cid) :
    noCid cid (runAction oracleAllOk r calls a).1 := by
  obtain ⟨aid, aty, apl, ats⟩ := a
  simp only at hty hpl
  subst hty
  subst hpl
  simp only [runAction, SyncPayload.idOf, Option.getD_some, oracleAllOk, not_true_eq_false,
    if_false]
  split
  · next hempty =>
    constructor
    · intro lr hlr
      have := (List.mem_filter.mp hlr).2
      simp at this
      exact this
    · intro p hp
      have hlen := (beq_iff_eq (α := ℕ)).mp hempty
      have hnil := List.length_eq_zero.mp hlen
      have hnone := filterMap_nil_forall hnil p hp
      simp only [] at hnone
      split at hnone
      · exact absurd hnone (by simp)
      · next hlt =>
        exact no_cid_of_not_shorter cid _ hlt
  · next hnonempty =>
    constructor
    · intro lr hlr
      have := (List.mem_filter.mp hlr).2
      simp at this
      exact this
    · apply upsert_all_free
      · intro u hu
        obtain ⟨p, hp, hf⟩ := List.mem_filterMap.mp hu
        split at hf
        · injection hf with hf
          rw [← hf]
          intro cp hcp
          have := (List.mem_filter.mp hcp).2
          simp at this
          exact this
        · cases hf
      · intro r' hr' hsafe cp hcp heq
        have hlt : ((r'.course_progress.getD []).filter
            (fun cp => ¬ cp.courseId == cid)).length
              < (r'.course_progress.getD []).length := by
          rw [List.length_filter_lt_length_iff_exists]
          exact ⟨cp, hcp, by simp [heq]⟩
        have hmem : (r'.student_id, (r'.course_progress.getD []).filter
            (fun cp => ¬ cp.courseId == cid)) ∈
              r.student_progress.filterMap (fun p =>
                if ((p.course_progress.getD []).filter
                    (fun cp => ¬ cp.courseId == cid)).length
                      < (p.course_progress.getD []).length then
                  some (p.student_id, (p.course_progress.getD []).filter
                    (fun cp => ¬ cp.courseId == cid))
                else none) := by
          refine List.mem_filterMap.mpr ⟨r', hr', ?_⟩
          rw [if_pos hlt]
        exact hsafe _ hmem rfl

/-- A queue item that can only write cid-free progress data remotely: an
`UPDATE_PROGRESS` whose payload's course list never mentions `cid`. -/
def tailSafe (cid : String) (i : SyncQueueItem) : Prop :=
  i.type = SyncType.UPDATE_PROGRESS ∧
  ∃ sp : StudentProgress, i.payload = SyncPayload.progress sp ∧
    ∀ cp ∈ sp.courseProgress, cp.courseId ≠ cid

lemma runAction_preserves_noCid (cid : String) (oracle : Nat → Bool) (r : RemoteDB)
    (calls : Nat) (i : SyncQueueItem) (hsafe : tailSafe cid i) (hno : noCid cid r) :
    noCid cid (runAction oracle r calls i).1 := by
  obtain ⟨hty, sp, hpl, hfree⟩ := hsafe
  obtain ⟨iid, ity, ipl, its⟩ := i
  simp only at hty hpl
  subst hty
  subst hpl
  simp only [runAction]
  split
  · constructor
    · exact hno.1
    · intro p hp
      rcases mem_putBy hp with rfl | hmem
      · simp only [progressRowOf, Option.getD_some]
        exact fun cp hcp heq => hfree cp hcp heq
      · exact hno.2 p hmem
  · exact hno

lemma processItems_preserves_noCid (cid : String) (oracle : Nat → Bool) :
    ∀ (items : List SyncQueueItem), (∀ i ∈ items, tailSafe cid i) →
      ∀ (db : LocalDB) (r : RemoteDB) (calls : Nat) (acc : List (SyncQueueItem × Bool)),
        noCid cid r → noCid cid (processItems oracle items db r calls acc).remote := by
  intro items
  induction items with
  | nil => intro _ db r calls acc hno; exact hno
  | cons a rest ih =>
    intro hall db r calls acc hno
    simp only [processItems]
    apply ih (fun i hi => hall i (List.mem_cons_of_mem _ hi))
    exact runAction_preserves_noCid cid oracle r calls a (hall a (List.mem_cons_self a rest)) hno

lemma processItems_append (oracle : Nat → Bool) :
    ∀ (l1 l2 : List SyncQueueItem) (db : LocalDB) (r : RemoteDB) (calls : Nat)
      (acc : List (SyncQueueItem × Bool)),
      processItems oracle (l1 ++ l2) db r calls acc
        = processItems oracle l2 (processItems oracle l1 db r calls acc).db
            (processItems oracle l1 db r calls acc).remote
            (processItems oracle l1 db r calls acc).calls
            (processItems oracle l1 db r calls acc).log := by
  intro l1
  induction l1 with
  | nil => intro l2 db r calls acc; rfl
  | cons a l1 ih =>
    intro l2 db r calls acc
    simp only [List.cons_append, processItems, List.append_eq]
    rw [ih]

lemma sorted_of_const_ts {t : Nat} :
    ∀ {l : List SyncQueueItem}, (∀ x ∈ l, x.timestamp = t) →
      l.Sorted (fun a b => a.timestamp ≤ b.timestamp) := by
  intro l
  induction l with
  | nil => intro _; simp
  | cons a rest ih =>
    intro h
    rw [List.sorted_cons]
    constructor
    · intro b hb
      rw [h a (List.mem_cons_self a rest), h b (List.mem_cons_of_mem _ hb)]
    · exact ih (fun x hx => h x (List.mem_cons_of_mem _ hx))

lemma map_eq_append_split {α β : Type} {f : α → β} :
    ∀ {s1 s2 : List β} {l : List α}, l.map f = s1 ++ s2 →
      ∃ l1 l2, l = l1 ++ l2 ∧ l1.map f = s1 ∧ l2.map f = s2 := by
  intro s1
  induction s1 with
  | nil =>
    intro s2 l h
    exact ⟨[], l, rfl, rfl, by simpa using h⟩
  | cons b bs ih =>
    intro s2 l h
    cases l with
    | nil => simp at h
    | cons a l =>
      rw [List.map_cons, List.cons_append] at h
      injection h with h1 h2
      obtain ⟨l1, l2, rfl, hm1, hm2⟩ := ih h2
      exact ⟨a :: l1, l2, rfl, by simp [h1, hm1], hm2⟩

lemma removeFirst_all_not {p : α → Bool} :
    ∀ {l : List α}, (l.filter p).length ≤ 1 → ∀ x ∈ removeFirst p l, p x = false := by
  intro l
  induction l with
  | nil => intro _ x hx; cases hx
  | cons a as ih =>
    intro h x hx
    by_cases ha : p a = true
    · rw [show removeFirst p (a :: as) = as from by simp [removeFirst, ha]] at hx
      rw [List.filter_cons, if_pos ha] at h
      simp only [List.length_cons] at h
      have : (as.filter p).length = 0 := by omega
      have hnil := List.length_eq_zero.mp this
      have := List.filter_eq_nil_iff.mp hnil x hx
      exact Bool.eq_false_iff.mpr this
    · rw [show removeFirst p (a :: as) = a :: removeFirst p as from by
        simp [removeFirst, ha]] at hx
      rcases List.mem_cons.mp hx with rfl | hx'
      · exact Bool.eq_false_iff.mpr ha
      · apply ih _ x hx'
        rw [List.filter_cons, if_neg ha] at h
        exact h

lemma deleteCourse_replay_noCid (cid today : String) (now : Nat) (db : LocalDB)
    (remote : RemoteDB) (course : Course)
    (hfind : db.courses.find? (fun c => c.id == cid) = some course)
    (hq0 : db.syncQueue = [])
    (hnodupcp : ∀ sp ∈ db.studentProgress,
      (sp.courseProgress.filter (fun cp => cp.courseId == cid)).length ≤ 1) :
    noCid cid (processSyncQueue oracleAllOk (deleteCourse cid today now db) remote).remote := by
  have himg := deleteCourse_queue_tp cid today now db course hfind
  rw [hq0] at himg
  simp only [List.map_nil, List.nil_append] at himg
  rw [List.append_assoc] at himg
  -- every queued item carries timestamp `now`, so the sort is the identity
  have hts : ∀ x ∈ (deleteCourse cid today now db).syncQueue, x.timestamp = now := by
    intro x hx
    have hximg : tpOf x ∈ ((deleteCourse cid today now db).syncQueue.map tpOf) :=
      List.mem_map_of_mem tpOf hx
    rw [himg] at hximg
    have : (tpOf x).2.2 = now := by
      rcases List.mem_append.mp hximg with h1 | h2
      · obtain ⟨l, _, hl⟩ := List.mem_map.mp h1
        rw [← hl]
      · rcases List.mem_append.mp h2 with h3 | h4
        · rw [List.mem_singleton.mp h3]
        · obtain ⟨sp, _, hsp⟩ := List.mem_flatMap.mp h4
          split at hsp
          · rw [List.mem_singleton.mp hsp]
          · cases hsp
    exact this
  have hsort : sortByTs (deleteCourse cid today now db).syncQueue
      = (deleteCourse cid today now db).syncQueue :=
    sortByTs_of_sorted (sorted_of_const_ts hts)
  -- split the queue into the lesson-delete prefix, the course delete, and the
  -- progress-update suffix
  obtain ⟨qA, rest, hqsplit, hA, hrest⟩ := map_eq_append_split himg
  obtain ⟨qB, qC, hrestsplit, hB, hC⟩ := map_eq_append_split hrest
  obtain ⟨d, qB', hd, hBtail⟩ : ∃ d qB', qB = d :: qB' ∧ qB' = [] := by
    cases qB with
    | nil => simp at hB
    | cons d qB' =>
      refine ⟨d, qB', rfl, ?_⟩
      rw [List.map_cons] at hB
      injection hB with _ h2
      exact List.map_eq_nil_iff.mp h2
  subst hBtail
  subst hd
  have htpd : tpOf d = (SyncType.DELETE_COURSE, SyncPayload.idOnly cid, now) := by
    rw [List.map_cons] at hB
    injection hB with h1 _
  have htyd : d.type = SyncType.DELETE_COURSE := congrArg (fun t => t.1) htpd
  have hpld : d.payload = SyncPayload.idOnly cid := congrArg (fun t => t.2.1) htpd
  -- the suffix only writes cid-free progress payloads
  have hCsafe : ∀ x ∈ qC, tailSafe cid x := by
    intro x hxc
    have hximg : tpOf x ∈ qC.map tpOf := List.mem_map_of_mem tpOf hxc
    rw [hC] at hximg
    obtain ⟨sp, hsp, hxin⟩ := List.mem_flatMap.mp hximg
    split at hxin
    · have hx := List.mem_singleton.mp hxin
      refine ⟨congrArg (fun t => t.1) hx, cascadeRemoveCourse cid today sp,
        congrArg (fun t => t.2.1) hx, ?_⟩
      intro cp hcp heq
      have hcps : (cascadeRemoveCourse cid today sp).courseProgress
          = removeFirst (fun cp => cp.courseId == cid) sp.courseProgress := by
        unfold cascadeRemoveCourse
        rw [courseProgress_updateHistory]
      rw [hcps] at hcp
      have := removeFirst_all_not (hnodupcp sp hsp) cp hcp
      simp [heq] at this
    · cases hxin
  -- run the replay: prefix, then the course delete (which establishes the
  -- invariant), then the suffix (which preserves it)
  have hrun : (processSyncQueue oracleAllOk (deleteCourse cid today now db) remote)
      = processItems oracleAllOk (qA ++ ([d] ++ qC)) (deleteCourse cid today now db)
          remote 0 [] := by
    unfold processSyncQueue
    rw [hsort, hqsplit, hrestsplit]
  rw [hrun, processItems_append, List.singleton_append]
  simp only [processItems]
  apply processItems_preserves_noCid cid oracleAllOk qC hCsafe
  exact runAction_deleteCourse_noCid cid _ _ d htyd hpld

/-- Claim C8 — cascade correctness of course deletion: deleting a course with
N embedded lessons and M students having progress in it queues exactly N
`DELETE_LESSON` items, exactly 1 `DELETE_COURSE` item and exactly M
`UPDATE_PROGRESS` items; and after `processSyncQueue` replays them against a
fully-accepting remote, no remote lesson row carries the deleted course id and
no remote student-progress row's course list contains it.  (The progress lists
are assumed to hold at most one entry per course, the well-formedness the
writes maintain.) -/
theorem C8_cascade_correctness
    (db : LocalDB) (remote : RemoteDB) (cid today : String) (now : Nat) (course : Course)
    (hfind : db.courses.find? (fun c => c.id == cid) = some course)
    (hq0 : db.syncQueue = [])
    (hnodupcp : ∀ sp ∈ db.studentProgress,
      (sp.courseProgress.filter (fun cp => cp.courseId == cid)).length ≤ 1) :
    (((deleteCourse cid today now db).syncQueue.filter
        (fun i => i.type == SyncType.DELETE_LESSON)).length = course.lessons.length ∧
      ((deleteCourse cid today now db).syncQueue.filter
        (fun i => i.type == SyncType.DELETE_COURSE)).length = 1 ∧
      ((deleteCourse cid today now db).syncQueue.filter
        (fun i => i.type == SyncType.UPDATE_PROGRESS)).length
        = (db.studentProgress.filter
            (fun sp => sp.courseProgress.any (fun cp => cp.courseId == cid))).length) ∧
    (∀ lr ∈ (processSyncQueue oracleAllOk (deleteCourse cid today now db)
        remote).remote.lessons, lr.course_id ≠ cid) ∧
    (∀ p ∈ (processSyncQueue oracleAllOk (deleteCourse cid today now db)
        remote).remote.student_progress,
      ∀ cp ∈ p.course_progress.getD [], cp.courseId ≠ cid) := by
  obtain ⟨h1, h2⟩ := deleteCourse_replay_noCid cid today now db remote course hfind hq0 hnodupcp
  exact ⟨deleteCourse_counts cid today now db course hfind hq0, h1, h2⟩

/-- Witness for C8: one course with one lesson and one student with progress;
the cascade queues exactly 1 + 1 + 1 items. -/
theorem C8_cascade_correctness_witness :
    ((deleteCourse "c1" "2026-01-03" 4
        ⟨[⟨"c1", "T", "D", "Book", [⟨"l1", "L", "x", none, none, false, none, [], none⟩],
            "t1", 5⟩],
          [], [⟨"s1", "S", [⟨"c1", 1, 1, 0, [⟨"l1", 1, 0⟩]⟩], []⟩], [], [], [],
          0⟩).syncQueue.filter
        (fun i => i.type == SyncType.DELETE_LESSON)).length = 1 ∧
    ((deleteCourse "c1" "2026-01-03" 4
        ⟨[⟨"c1", "T", "D", "Book", [⟨"l1", "L", "x", none, none, false, none, [], none⟩],
            "t1", 5⟩],
          [], [⟨"s1", "S", [⟨"c1", 1, 1, 0, [⟨"l1", 1, 0⟩]⟩], []⟩], [], [], [],
          0⟩).syncQueue.filter
        (fun i => i.type == SyncType.DELETE_COURSE)).length = 1 ∧
    ((deleteCourse "c1" "2026-01-03" 4
        ⟨[⟨"c1", "T", "D", "Book", [⟨"l1", "L", "x", none, none, false, none, [], none⟩],
            "t1", 5⟩],
          [], [⟨"s1", "S", [⟨"c1", 1, 1, 0, [⟨"l1", 1, 0⟩]⟩], []⟩], [], [], [],
          0⟩).syncQueue.filter
        (fun i => i.type == SyncType.UPDATE_PROGRESS)).length = 1 :=
  (C8_cascade_correctness
    ⟨[⟨"c1", "T", "D", "Book", [⟨"l1", "L", "x", none, none, false, none, [], none⟩],
        "t1", 5⟩],
      [], [⟨"s1", "S", [⟨"c1", 1, 1, 0, [⟨"l1", 1, 0⟩]⟩], []⟩], [], [], [], 0⟩
    ⟨[], [⟨"l1", "c1", "L", "x", none, none, none, [], none⟩],
      [⟨"s1", "S", some [⟨"c1", 1, 1, 0, [⟨"l1", 1, 0⟩]⟩], some []⟩], []⟩
    "c1" "2026-01-03" 4
    ⟨"c1", "T", "D", "Book", [⟨"l1", "L", "x", none, none, false, none, [], none⟩], "t1", 5⟩
    (by decide) rfl (by decide)).1

/-! ### `saveCourse`, `saveLesson` (part_011) and claim C9 -/

/-- The argument of `saveCourse`: `Omit<Course, 'id'|'lessons'|'authorId'> &
{ id?: string }`. -/
structure CourseInput where
  id : Option String
  title : String
  description : String
  icon : String
  forClass : Int
deriving DecidableEq, Repr

/-- part_011 `saveCourse`: update an existing course (error if absent) or
create a fresh one with id `course_<Date.now()>`; in both cases put it locally
and queue exactly one `SAVE_COURSE` item. -/
def saveCourse (courseData : CourseInput) (authorId : String) (now : Nat) (db : LocalDB) :
    Except String (Course × LocalDB) :=
  match courseData.id with
  | some cid =>
    match db.courses.find? (fun c => c.id == cid) with
    | none => .error "Course not found for updating"
    | some existingCourse =>
      let courseToSave : Course := { existingCourse with
        title := courseData.title
        description := courseData.description
        icon := courseData.icon
        forClass := courseData.forClass }
      let db1 := { db with courses := putBy (fun c => c.id) courseToSave db.courses }
      .ok (courseToSave, addQueueItem db1 .SAVE_COURSE (.course courseToSave) now)
  | none =>
    let courseToSave : Course :=
      ⟨"course_" ++ toString now, courseData.title, courseData.description,
        courseData.icon, [], authorId, courseData.forClass⟩
    let db1 := { db with courses := putBy (fun c => c.id) courseToSave db.courses }
    .ok (courseToSave, addQueueItem db1 .SAVE_COURSE (.course courseToSave) now)

/-- The argument of `saveLesson`: `Omit<Lesson, 'id'> & { id?: string }`
(`quiz` may be absent, read as `lessonData.quiz || []`). -/
structure LessonInput where
  id : Option String
  title : String
  content : String
  summary : Option String
  videoUrl : Option String
  hasOfflineVideo : Bool
  transcript : Option (List TranscriptEntry)
  quiz : Option (List QuizQuestion)
  difficulty : Option String
deriving DecidableEq, Repr

/-- The `videoFileAction?: File | null` three-state argument. -/
inductive VideoFileAction where
  | upload (blob : Nat)
  | clear
  | keep
deriving DecidableEq, Repr

/-- Source saveVideo (part_011): put the blob under the lesson id. -/
def saveVideo (lessonId : String) (blob : Nat) (db : LocalDB) : LocalDB :=
  { db with videos := putBy (fun v => v.id) ⟨lessonId, blob⟩ db.videos }

/-- Source deleteVideo (part_011): delete the blob row for the lesson id. -/
def deleteVideo (lessonId : String) (db : LocalDB) : LocalDB :=
  { db with videos := db.videos.filter (fun v => ¬ v.id == lessonId) }

/-- JS truthiness of an optional string (`""` is falsy). -/
def truthyStr : Option String → Bool
  | some s => ¬ s == ""
  | none => false

/-- The `totalLessons` propagation `saveLesson` runs for newly added lessons:
every student with progress in the course gets the new lesson count, a local
put and one queued `UPDATE_PROGRESS` item. -/
def propagateTotalLessons (courseId : String) (total : Nat) (now : Nat)
    (students : List StudentProgress) (d : LocalDB) : LocalDB :=
  students.foldl (fun d sp =>
    if sp.courseProgress.any (fun cp => cp.courseId == courseId) then
      let cps := updateFirst (fun cp => cp.courseId == courseId)
        (fun cp => { cp with totalLessons := total }) sp.courseProgress
      let sp1 := { sp with courseProgress := cps }
      let d1 := { d with studentProgress := putBy (fun p => p.studentId) sp1 d.studentProgress }
      addQueueItem d1 .UPDATE_PROGRESS (.progress sp1) now
    else d) d

/-- The handling in `saveLesson` of the `videoFileAction` three-state argument
against the blob store: upload replaces the blob, null removes it when an
offline blob exists, undefined removes it only when switching from an offline
blob to a (truthy) URL. -/
def applyVideoAction (lessonId : String) (va : VideoFileAction) (oldHasVideo : Bool)
    (videoUrl : Option String) (db : LocalDB) : LocalDB :=
  match va with
  | .upload b => saveVideo lessonId b db
  | .clear => if oldHasVideo then deleteVideo lessonId db else db
  | .keep => if truthyStr videoUrl && oldHasVideo then deleteVideo lessonId db else db

/-- part_011 `saveLesson`: resolve the course (error if absent), apply the
video action to the blob store, insert or replace the lesson in the embedded
list, put the course, queue one `SAVE_LESSON` item, and — only when the lesson
is new — propagate `totalLessons` to every student with progress in the
course, queueing one further `UPDATE_PROGRESS` item per such student. -/
def saveLesson (courseId : String) (lessonData : LessonInput)
    (videoFileAction : VideoFileAction) (now : Nat) (db : LocalDB) :
    Except String (Lesson × LocalDB) :=
  match db.courses.find? (fun c => c.id == courseId) with
  | none => .error "Course not found"
  | some course =>
    let isUpdate := lessonData.id.isSome
    let lessonId := lessonData.id.getD ("lesson_" ++ toString now)
    let oldLesson := if isUpdate then course.lessons.find? (fun l => l.id == lessonId)
      else none
    let oldHasVideo := (oldLesson.map (fun l => l.hasOfflineVideo)).getD false
    let db1 := applyVideoAction lessonId videoFileAction oldHasVideo lessonData.videoUrl db
    let finalLessonData : Lesson :=
      ⟨lessonId, lessonData.title, lessonData.content, lessonData.summary,
        lessonData.videoUrl, lessonData.hasOfflineVideo, lessonData.transcript,
        lessonData.quiz.getD [], lessonData.difficulty⟩
    let lessons1 :=
      if isUpdate then
        (if course.lessons.any (fun l => l.id == lessonId) then
          updateFirst (fun l => l.id == lessonId) (fun _ => finalLessonData) course.lessons
        else course.lessons)
      else course.lessons ++ [finalLessonData]
    let course1 := { course with lessons := lessons1 }
    let db2 := { db1 with courses := putBy (fun c => c.id) course1 db1.courses }
    let db3 := addQueueItem db2 .SAVE_LESSON (.lesson finalLessonData courseId) now
    let db4 :=
      if isUpdate then db3
      else propagateTotalLessons courseId course1.lessons.length now db.studentProgress db3
    .ok (finalLessonData, db4)

lemma applyVideoAction_syncQueue (lessonId : String) (va : VideoFileAction)
    (oldHasVideo : Bool) (videoUrl : Option String) (db : LocalDB) :
    (applyVideoAction lessonId va oldHasVideo videoUrl db).syncQueue = db.syncQueue := by
  cases va with
  | upload b => rfl
  | clear =>
    dsimp only [applyVideoAction]
    split <;> rfl
  | keep =>
    dsimp only [applyVideoAction]
    split <;> rfl

lemma propagateTotalLessons_queue_length (cid : String) (total now : Nat) :
    ∀ (students : List StudentProgress) (d : LocalDB),
      (propagateTotalLessons cid total now students d).syncQueue.length
        = d.syncQueue.length
          + (students.filter
              (fun sp => sp.courseProgress.any (fun cp => cp.courseId == cid))).length := by
  intro students
  induction students with
  | nil => intro d; simp [propagateTotalLessons]
  | cons sp rest ih =>
    intro d
    unfold propagateTotalLessons
    rw [List.foldl_cons]
    have ih' := ih
    unfold propagateTotalLessons at ih'
    rw [ih', List.filter_cons]
    by_cases h : sp.courseProgress.any (fun cp => cp.courseId == cid) = true
    · rw [if_pos h, if_pos h]
      simp [addQueueItem]
      omega
    · rw [if_neg h, if_neg h]

lemma saveLesson_queue_length (courseId : String) (ld : LessonInput)
    (va : VideoFileAction) (now : Nat) (db : LocalDB) (l : Lesson) (db' : LocalDB)
    (h : saveLesson courseId ld va now db = .ok (l, db')) :
    db'.syncQueue.length
      = db.syncQueue.length + 1
        + (if ld.id.isSome then 0
           else (db.studentProgress.filter
              (fun sp => sp.courseProgress.any (fun cp => cp.courseId == courseId))).length) := by
  unfold saveLesson at h
  split at h
  · exact absurd h (by simp)
  · next course hfind =>
    injection h with hpair
    rw [Prod.mk.injEq] at hpair
    rw [← hpair.2]
    by_cases hup : ld.id.isSome = true
    · simp only [hup, if_true]
      simp [addQueueItem, applyVideoAction_syncQueue]
    · simp only [Bool.not_eq_true] at hup
      simp only [hup, Bool.false_eq_true, if_false]
      rw [propagateTotalLessons_queue_length]
      simp [addQueueItem, applyVideoAction_syncQueue]

lemma saveCourse_queue_length (cd : CourseInput) (aid : String) (now : Nat) (db : LocalDB)
    (c : Course) (db' : LocalDB) (h : saveCourse cd aid now db = .ok (c, db')) :
    db'.syncQueue.length = db.syncQueue.length + 1 := by
  unfold saveCourse at h
  split at h
  · split at h
    · exact absurd h (by simp)
    · injection h with hpair
      rw [Prod.mk.injEq] at hpair
      rw [← hpair.2]
      simp [addQueueItem]
  · injection h with hpair
    rw [Prod.mk.injEq] at hpair
    rw [← hpair.2]
    simp [addQueueItem]

lemma updateQuizProgress_queue_length (sid sname cid lid : String) (s : ℚ)
    (today : String) (now : Nat) (db : LocalDB) :
    (updateQuizProgress sid sname cid lid s today now db).syncQueue.length
      = db.syncQueue.length + 1 := by
  simp [updateQuizProgress, addQueueItem]

/-- Counterexample to C9 as stated: saving a *new* lesson into a course in
which one student has progress appends **two** sync-queue items (the
`SAVE_LESSON` plus a `UPDATE_PROGRESS` from the totalLessons propagation), not
exactly one. -/
theorem C9_new_lesson_two_items_counterexample :
    (saveLesson "c1" ⟨none, "L", "x", none, none, false, none, none, none⟩ .keep 5
      ⟨[⟨"c1", "T", "D", "Book", [], "t1", 5⟩], [],
        [⟨"s1", "S", [⟨"c1", 0, 0, 0, []⟩], []⟩], [], [], [], 0⟩).toOption.map
      (fun p => p.2.syncQueue.length) = some 2 := by
  rfl

/-- Claim C9 (amended): `saveCourse` and `updateQuizProgress` append exactly
one queue item per successful write, and so does `saveLesson` when *updating*
an existing lesson; but `saveLesson` on a *new* lesson appends one
`SAVE_LESSON` item plus one `UPDATE_PROGRESS` item per student with progress
in the course — only cascading deletes and new-lesson saves may append
several. -/
theorem C9_one_queue_item_per_write
    : (∀ (cd : CourseInput) (aid : String) (now : Nat) (db : LocalDB) (c : Course)
        (db' : LocalDB), saveCourse cd aid now db = .ok (c, db') →
        db'.syncQueue.length = db.syncQueue.length + 1) ∧
      (∀ (sid sname cid lid : String) (s : ℚ) (today : String) (now : Nat) (db : LocalDB),
        (updateQuizProgress sid sname cid lid s today now db).syncQueue.length
          = db.syncQueue.length + 1) ∧
      (∀ (cid : String) (ld : LessonInput) (va : VideoFileAction) (now : Nat)
        (db : LocalDB) (l : Lesson) (db' : LocalDB), ld.id.isSome = true →
        saveLesson cid ld va now db = .ok (l, db') →
        db'.syncQueue.length = db.syncQueue.length + 1) ∧
      (∀ (cid : String) (ld : LessonInput) (va : VideoFileAction) (now : Nat)
        (db : LocalDB) (l : Lesson) (db' : LocalDB), ld.id = none →
        saveLesson cid ld va now db = .ok (l, db') →
        db'.syncQueue.length
          = db.syncQueue.length + 1
            + (db.studentProgress.filter
                (fun sp => sp.courseProgress.any (fun cp => cp.courseId == cid))).length) := by
  refine ⟨saveCourse_queue_length, updateQuizProgress_queue_length, ?_, ?_⟩
  · intro cid ld va now db l db' hup h
    have := saveLesson_queue_length cid ld va now db l db' h
    rw [if_pos hup] at this
    omega
  · intro cid ld va now db l db' hnone h
    have := saveLesson_queue_length cid ld va now db l db' h
    rw [if_neg (by simp [hnone])] at this
    exact this

/-- Witness for the amended C9 at concrete inputs: course creation and a quiz
write append one item each; a lesson update appends one; a new-lesson save
with one student having progress appends two. -/
theorem C9_one_queue_item_per_write_witness :
    ((⟨[⟨"course_7", "T", "D", "Book", [], "t1", 5⟩], [], [], [],
        [⟨0, SyncType.SAVE_COURSE,
          SyncPayload.course ⟨"course_7", "T", "D", "Book", [], "t1", 5⟩, 7⟩],
        [], 1⟩ : LocalDB).syncQueue.length
      = (⟨[], [], [], [], [], [], 0⟩ : LocalDB).syncQueue.length + 1) ∧
    ((updateQuizProgress "s1" "S" "c1" "l1" 0 "2026-01-01" 5
        ⟨[], [], [], [], [], [], 0⟩).syncQueue.length
      = (⟨[], [], [], [], [], [], 0⟩ : LocalDB).syncQueue.length + 1) ∧
    ((⟨[⟨"c1", "T", "D", "Book", [⟨"l1", "L2", "y", none, none, false, none, [], none⟩],
          "t1", 5⟩], [], [], [],
        [⟨0, SyncType.SAVE_LESSON,
          SyncPayload.lesson ⟨"l1", "L2", "y", none, none, false, none, [], none⟩ "c1", 6⟩],
        [], 1⟩ : LocalDB).syncQueue.length
      = (⟨[⟨"c1", "T", "D", "Book", [⟨"l1", "L", "x", none, none, false, none, [], none⟩],
            "t1", 5⟩], [], [], [], [], [], 0⟩ : LocalDB).syncQueue.length + 1) ∧
    ((⟨[⟨"c1", "T", "D", "Book", [⟨"lesson_5", "L", "x", none, none, false, none, [], none⟩],
          "t1", 5⟩], [],
        [⟨"s1", "S", [⟨"c1", 0, 1, 0, []⟩], []⟩], [],
        [⟨0, SyncType.SAVE_LESSON,
          SyncPayload.lesson ⟨"lesson_5", "L", "x", none, none, false, none, [], none⟩ "c1", 5⟩,
         ⟨1, SyncType.UPDATE_PROGRESS,
          SyncPayload.progress ⟨"s1", "S", [⟨"c1", 0, 1, 0, []⟩], []⟩, 5⟩],
        [], 2⟩ : LocalDB).syncQueue.length
      = (⟨[⟨"c1", "T", "D", "Book", [], "t1", 5⟩], [],
          [⟨"s1", "S", [⟨"c1", 0, 0, 0, []⟩], []⟩], [], [], [], 0⟩ : LocalDB).syncQueue.length
        + 1
        + ((⟨[⟨"c1", "T", "D", "Book", [], "t1", 5⟩], [],
            [⟨"s1", "S", [⟨"c1", 0, 0, 0, []⟩], []⟩], [], [], [], 0⟩ : LocalDB).studentProgress.filter
            (fun sp => sp.courseProgress.any (fun cp => cp.courseId == "c1"))).length) :=
  ⟨C9_one_queue_item_per_write.1 ⟨none, "T", "D", "Book", 5⟩ "t1" 7
      ⟨[], [], [], [], [], [], 0⟩ ⟨"course_7", "T", "D", "Book", [], "t1", 5⟩
      ⟨[⟨"course_7", "T", "D", "Book", [], "t1", 5⟩], [], [], [],
        [⟨0, SyncType.SAVE_COURSE,
          SyncPayload.course ⟨"course_7", "T", "D", "Book", [], "t1", 5⟩, 7⟩],
        [], 1⟩ rfl,
   C9_one_queue_item_per_write.2.1 "s1" "S" "c1" "l1" 0 "2026-01-01" 5
      ⟨[], [], [], [], [], [], 0⟩,
   C9_one_queue_item_per_write.2.2.1 "c1"
      ⟨some "l1", "L2", "y", none, none, false, none, none, none⟩ .keep 6
      ⟨[⟨"c1", "T", "D", "Book", [⟨"l1", "L", "x", none, none, false, none, [], none⟩],
          "t1", 5⟩], [], [], [], [], [], 0⟩
      ⟨"l1", "L2", "y", none, none, false, none, [], none⟩
      ⟨[⟨"c1", "T", "D", "Book", [⟨"l1", "L2", "y", none, none, false, none, [], none⟩],
          "t1", 5⟩], [], [], [],
        [⟨0, SyncType.SAVE_LESSON,
          SyncPayload.lesson ⟨"l1", "L2", "y", none, none, false, none, [], none⟩ "c1", 6⟩],
        [], 1⟩ rfl rfl,
   C9_one_queue_item_per_write.2.2.2 "c1"
      ⟨none, "L", "x", none, none, false, none, none, none⟩ .keep 5
      ⟨[⟨"c1", "T", "D", "Book", [], "t1", 5⟩], [],
        [⟨"s1", "S", [⟨"c1", 0, 0, 0, []⟩], []⟩], [], [], [], 0⟩
      ⟨"lesson_5", "L", "x", none, none, false, none, [], none⟩
      ⟨[⟨"c1", "T", "D", "Book", [⟨"lesson_5", "L", "x", none, none, false, none, [], none⟩],
          "t1", 5⟩], [],
        [⟨"s1", "S", [⟨"c1", 0, 1, 0, []⟩], []⟩], [],
        [⟨0, SyncType.SAVE_LESSON,
          SyncPayload.lesson ⟨"lesson_5", "L", "x", none, none, false, none, [], none⟩ "c1", 5⟩,
         ⟨1, SyncType.UPDATE_PROGRESS,
          SyncPayload.progress ⟨"s1", "S", [⟨"c1", 0, 1, 0, []⟩], []⟩, 5⟩],
        [], 2⟩ rfl rfl⟩

/-- Witness for C5 at a concrete two-item queue: the attempted list is a
permutation of the queue, and the earlier-timestamped item is attempted first. -/
theorem C5_fifo_replay_witness :
    ((processSyncQueue oracleAllOk
        ⟨[], [], [], [],
          [⟨0, SyncType.DELETE_LESSON, SyncPayload.idOnly "a", 1⟩,
           ⟨1, SyncType.DELETE_LESSON, SyncPayload.idOnly "b", 2⟩], [], 2⟩
        ⟨[], [], [], []⟩).log.map Prod.fst).Perm
      [⟨0, SyncType.DELETE_LESSON, SyncPayload.idOnly "a", 1⟩,
       ⟨1, SyncType.DELETE_LESSON, SyncPayload.idOnly "b", 2⟩] ∧
    (0 : ℕ) < 1 :=
  ⟨(C5_fifo_replay oracleAllOk
      ⟨[], [], [], [],
        [⟨0, SyncType.DELETE_LESSON, SyncPayload.idOnly "a", 1⟩,
         ⟨1, SyncType.DELETE_LESSON, SyncPayload.idOnly "b", 2⟩], [], 2⟩
      ⟨[], [], [], []⟩).1,
   (C5_fifo_replay oracleAllOk
      ⟨[], [], [], [],
        [⟨0, SyncType.DELETE_LESSON, SyncPayload.idOnly "a", 1⟩,
         ⟨1, SyncType.DELETE_LESSON, SyncPayload.idOnly "b", 2⟩], [], 2⟩
      ⟨[], [], [], []⟩).2 0 1 (by decide) (by decide) (by decide)⟩
